import Mathlib

/-!
Verification development for the JSON-extraction-and-reconciliation layer of the
AgenticGroupCR repository (`src/json_utils.py`).

The Python module is shallowly embedded as executable Lean definitions:

* `Json` models the values produced by Python's `json.loads` over the JSON texts
  this system handles.  JSON numbers are modelled as exact decimals
  `num m s` denoting `m / 10 ^ s`; `s = 0` corresponds to a Python `int`
  and `s > 0` to a `float` printed with `s` digits after the decimal point.
  (Binary floating point rounding and the shortest-roundtrip float repr are not
  modelled; all numbers are kept exact.)
* Fallible Python code is embedded in `Except Unit`: `Except.error ()` stands
  for an uncaught Python `TypeError` escaping the function, while
  `json.JSONDecodeError` — always caught by the module — is modelled by `Option`
  results of `jsonLoads`.
-/

set_option maxHeartbeats 1000000

namespace AgenticCR

/-- JSON values as produced by Python `json.loads`.  `num m s` is the exact
decimal `m / 10 ^ s` (`s = 0`: Python int; `s > 0`: float with `s` fractional
digits). -/
inductive Json where
  | null : Json
  | bool (b : Bool) : Json
  | num (m : Int) (s : Nat) : Json
  | str (s : String) : Json
  | arr (elems : List Json) : Json
  | obj (members : List (String × Json)) : Json
  deriving Repr

mutual

/-- Structural equality test for `Json`, used to build `DecidableEq`. -/
def Json.beq : Json → Json → Bool
  | .null, .null => true
  | .bool a, .bool b => a = b
  | .num m s, .num n t => m = n && s = t
  | .str a, .str b => a = b
  | .arr xs, .arr ys => Json.beqList xs ys
  | .obj xs, .obj ys => Json.beqMems xs ys
  | _, _ => false

def Json.beqList : List Json → List Json → Bool
  | [], [] => true
  | x :: xs, y :: ys => Json.beq x y && Json.beqList xs ys
  | _, _ => false

def Json.beqMems : List (String × Json) → List (String × Json) → Bool
  | [], [] => true
  | (k, v) :: xs, (k', v') :: ys => k = k' && Json.beq v v' && Json.beqMems xs ys
  | _, _ => false

end

mutual

theorem Json.beq_iff : ∀ (a b : Json), Json.beq a b = true ↔ a = b
  | a, b => by
    cases a <;> cases b <;> simp [Json.beq]
    case arr.arr xs ys => exact Json.beqList_iff xs ys
    case obj.obj xs ys => exact Json.beqMems_iff xs ys

theorem Json.beqList_iff : ∀ (xs ys : List Json), Json.beqList xs ys = true ↔ xs = ys
  | [], [] => by simp [Json.beqList]
  | [], _ :: _ => by simp [Json.beqList]
  | _ :: _, [] => by simp [Json.beqList]
  | x :: xs, y :: ys => by
    simp only [Json.beqList, Bool.and_eq_true, List.cons.injEq]
    exact and_congr (Json.beq_iff x y) (Json.beqList_iff xs ys)

theorem Json.beqMems_iff : ∀ (xs ys : List (String × Json)), Json.beqMems xs ys = true ↔ xs = ys
  | [], [] => by simp [Json.beqMems]
  | [], _ :: _ => by simp [Json.beqMems]
  | _ :: _, [] => by simp [Json.beqMems]
  | (k, v) :: xs, (k', v') :: ys => by
    simp only [Json.beqMems, Bool.and_eq_true, List.cons.injEq, Prod.mk.injEq,
      decide_eq_true_eq]
    rw [Json.beq_iff v v', Json.beqMems_iff xs ys, and_assoc]

end

instance : DecidableEq Json := fun a b => decidable_of_iff _ (Json.beq_iff a b)

instance {ε α : Type} [DecidableEq ε] [DecidableEq α] : DecidableEq (Except ε α) :=
  fun a b =>
    match a, b with
    | .ok x, .ok y => decidable_of_iff (x = y) (by simp)
    | .error x, .error y => decidable_of_iff (x = y) (by simp)
    | .ok _, .error _ => isFalse (by simp)
    | .error _, .ok _ => isFalse (by simp)

/-- JSON whitespace, as accepted by Python's json decoder (`' \t\n\r'`). -/
def isWs (c : Char) : Bool := c = ' ' || c = '\t' || c = '\n' || c = '\r'

def skipWs (cs : List Char) : List Char := cs.dropWhile (fun c => isWs c)

def isDigit (c : Char) : Bool := '0' ≤ c && c ≤ '9'

def digitVal (c : Char) : Nat := c.toNat - 48

/-- Value of a most-significant-first digit string. -/
def digitsVal (ds : List Char) : Nat := ds.foldl (fun a c => a * 10 + digitVal c) 0

def hexVal? (c : Char) : Option Nat :=
  if '0' ≤ c && c ≤ '9' then some (c.toNat - 48)
  else if 'a' ≤ c && c ≤ 'f' then some (c.toNat - 87)
  else if 'A' ≤ c && c ≤ 'F' then some (c.toNat - 55)
  else none

/-- Short escapes accepted after a backslash in a JSON string (Python
`json.decoder.BACKSLASH`, without `u`). -/
def escChar? (e : Char) : Option Char :=
  if e = '"' then some '"'
  else if e = '\\' then some '\\'
  else if e = '/' then some '/'
  else if e = 'b' then some (Char.ofNat 8)
  else if e = 'f' then some (Char.ofNat 12)
  else if e = 'n' then some '\n'
  else if e = 'r' then some '\r'
  else if e = 't' then some '\t'
  else none

/-- A `\uXXXX` escape, entered just after the `u`: decodes the four hex
digits, combining a valid surrogate pair with a following `\uXXXX`.  (Python
would keep a *lone* surrogate in the decoded string; such code points are not
representable in a Lean `Char`, so those inputs are rejected here.) -/
def parseU (cs : List Char) : Option (Char × List Char) :=
  match cs with
  | h1 :: h2 :: h3 :: h4 :: rest3 =>
    match hexVal? h1, hexVal? h2, hexVal? h3, hexVal? h4 with
    | some a, some b, some c2, some d =>
      let n := ((a * 16 + b) * 16 + c2) * 16 + d
      if 0xD800 ≤ n ∧ n < 0xDC00 then
        match rest3 with
        | '\\' :: 'u' :: g1 :: g2 :: g3 :: g4 :: rest4 =>
          match hexVal? g1, hexVal? g2, hexVal? g3, hexVal? g4 with
          | some a', some b', some c', some d' =>
            let m := ((a' * 16 + b') * 16 + c') * 16 + d'
            if 0xDC00 ≤ m ∧ m < 0xE000 then
              some (Char.ofNat (0x10000 + (n - 0xD800) * 0x400 + (m - 0xDC00)), rest4)
            else none
          | _, _, _, _ => none
        | _ => none
      else if 0xDC00 ≤ n ∧ n < 0xE000 then none
      else some (Char.ofNat n, rest3)
    | _, _, _, _ => none
  | _ => none

/-- Body of a JSON string after the opening quote: returns the decoded
content and the input after the closing quote.  Follows Python's strict
decoder: raw control characters below `0x20` are rejected and `\uXXXX`
escapes are decoded via `parseU`.  The fuel only makes the recursion
structural; `length + 1` always suffices since every step consumes at least
one input character. -/
def parseStringBody : Nat → List Char → Option (List Char × List Char)
  | 0, _ => none
  | _ + 1, [] => none
  | fuel + 1, c :: rest =>
    if c = '"' then some ([], rest)
    else if c = '\\' then
      match rest with
      | [] => none
      | e :: rest2 =>
        if e = 'u' then
          match parseU rest2 with
          | some (ch, rest3) =>
            match parseStringBody fuel rest3 with
            | some (content, rest4) => some (ch :: content, rest4)
            | none => none
          | none => none
        else
          match escChar? e with
          | some ec =>
            match parseStringBody fuel rest2 with
            | some (content, rest3) => some (ec :: content, rest3)
            | none => none
          | none => none
    else if c.toNat < 0x20 then none
    else
      match parseStringBody fuel rest with
      | some (content, rest2) => some (c :: content, rest2)
      | none => none

/-- Optional leading minus sign of a number literal. -/
def numNeg : List Char → Bool × List Char
  | '-' :: t => (true, t)
  | cs => (false, cs)

/-- Integer part after the (consumed) sign: Python's `(?:0|[1-9]\d*)`, maximal
munch with the leading-zero rule. -/
def numInt (c : Char) (t : List Char) : List Char × List Char :=
  if c = '0' then ([c], t) else (c :: t.takeWhile isDigit, t.dropWhile isDigit)

/-- Optional fractional part `(\.\d+)?`: digits and remaining input. -/
def numFrac : List Char → List Char × List Char
  | '.' :: u =>
    if u.takeWhile isDigit = [] then ([], '.' :: u)
    else (u.takeWhile isDigit, u.dropWhile isDigit)
  | rest1 => ([], rest1)

/-- Sign of an exponent `[-+]?`. -/
def numExpSign : List Char → Bool × List Char
  | '-' :: u2 => (true, u2)
  | '+' :: u2 => (false, u2)
  | u => (false, u)

/-- Optional exponent `([eE][-+]?\d+)?`: its value and remaining input. -/
def numExp : List Char → Option Int × List Char
  | e :: u =>
    if e = 'e' ∨ e = 'E' then
      let sgnU := numExpSign u
      let ed := sgnU.2.takeWhile isDigit
      if ed = [] then (none, e :: u)
      else
        let ev : Int := (digitsVal ed : Nat)
        (some (if sgnU.1 then -ev else ev), sgnU.2.dropWhile isDigit)
    else (none, e :: u)
  | [] => (none, [])

/-- JSON number, following Python's `NUMBER_RE`
`(-?(?:0|[1-9]\d*))(\.\d+)?([eE][-+]?\d+)?` (maximal munch).  An integer
literal yields `num a 0`; a literal with a fractional part or exponent yields a
float `num m s` with `s ≥ 1`. -/
def parseNumber (cs : List Char) : Option (Json × List Char) :=
  let negCs := numNeg cs
  let neg := negCs.1
  match negCs.2 with
  | [] => none
  | c :: t =>
    if ¬ isDigit c then none
    else
      let intRest := numInt c t
      let intDigits := intRest.1
      let rest1 := intRest.2
      let fracRest := numFrac rest1
      let fracDigits := fracRest.1
      let rest2 := fracRest.2
      let expRest := numExp rest2
      let a := digitsVal intDigits
      let k := fracDigits.length
      let macc : Nat := a * 10 ^ k + digitsVal fracDigits
      let sign : Int → Int := fun x => if neg then -x else x
      match expRest.1 with
      | none =>
        if k = 0 then some (.num (sign a) 0, rest2)
        else some (.num (sign macc) k, rest2)
      | some e =>
        if (k : Int) ≤ e then
          some (.num (sign (macc * 10 ^ ((e - k).toNat + 1))) 1, expRest.2)
        else some (.num (sign macc) ((k : Int) - e).toNat, expRest.2)

/-- Python dict insertion: a repeated key keeps its original position but takes
the later value. -/
def insertMember (kvs : List (String × Json)) (k : String) (v : Json) :
    List (String × Json) :=
  match kvs with
  | [] => [(k, v)]
  | (k', v') :: rest => if k' = k then (k', v) :: rest else (k', v') :: insertMember rest k v

mutual

/-- One JSON value at the head of the input (no leading-whitespace skip, as in
Python's `scan_once`).  The fuel only bounds nesting; `length + 1` always
suffices. -/
def parseValue : Nat → List Char → Option (Json × List Char)
  | 0, _ => none
  | _ + 1, [] => none
  | fuel + 1, c :: rest =>
    if c = '{' then
      match skipWs rest with
      | '}' :: rest2 => some (.obj [], rest2)
      | cs2 => parseObjBody fuel cs2 []
    else if c = '[' then
      match skipWs rest with
      | ']' :: rest2 => some (.arr [], rest2)
      | cs2 => parseArrBody fuel cs2 []
    else if c = '"' then
      match parseStringBody (rest.length + 1) rest with
      | some (content, rest2) => some (.str (String.mk content), rest2)
      | none => none
    else if c = 't' then
      if rest.take 3 = ['r', 'u', 'e'] then some (.bool true, rest.drop 3) else none
    else if c = 'f' then
      if rest.take 4 = ['a', 'l', 's', 'e'] then some (.bool false, rest.drop 4) else none
    else if c = 'n' then
      if rest.take 3 = ['u', 'l', 'l'] then some (.null, rest.drop 3) else none
    else if c = '-' ∨ isDigit c then parseNumber (c :: rest)
    else none

/-- Members of an object, starting at a (expected) quoted key. -/
def parseObjBody : Nat → List Char → List (String × Json) → Option (Json × List Char)
  | 0, _, _ => none
  | fuel + 1, cs, acc =>
    match cs with
    | '"' :: rest =>
      match parseStringBody (rest.length + 1) rest with
      | none => none
      | some (key, rest1) =>
        match skipWs rest1 with
        | ':' :: rest2 =>
          match parseValue fuel (skipWs rest2) with
          | none => none
          | some (v, rest3) =>
            let acc' := insertMember acc (String.mk key) v
            match skipWs rest3 with
            | ',' :: rest4 =>
              match skipWs rest4 with
              | cs5 => parseObjBody fuel cs5 acc'
            | '}' :: rest4 => some (.obj acc', rest4)
            | _ => none
        | _ => none
    | _ => none

/-- Elements of an array, starting at a value. -/
def parseArrBody : Nat → List Char → List Json → Option (Json × List Char)
  | 0, _, _ => none
  | fuel + 1, cs, acc =>
    match parseValue fuel cs with
    | none => none
    | some (v, rest) =>
      match skipWs rest with
      | ',' :: rest2 => parseArrBody fuel (skipWs rest2) (acc ++ [v])
      | ']' :: rest2 => some (.arr (acc ++ [v]), rest2)
      | _ => none

end

/-- Python `json.loads`: leading and trailing whitespace allowed, anything else
after the value is "Extra data".  `none` models `json.JSONDecodeError`. -/
def jsonLoads (s : String) : Option Json :=
  match parseValue (s.length + 1) (skipWs s.data) with
  | some (v, rest) => if skipWs rest = [] then some v else none
  | none => none

/-! ## The bracket-matching scanner (`extract_first_json_object`) -/

/-- The scanning loop of `extract_first_json_object` (json_utils.py lines
23–52), transcribed branch for branch: `i` is the current index, `bc` the
brace counter, `si` the recorded start index, `instr`/`esc` the
string/escape flags.  Returns the (start, end) index pair of the first
extracted object. -/
def efjoAux : List Char → Nat → Int → Option Nat → Bool → Bool → Option (Nat × Nat)
  | [], _, _, _, _, _ => none
  | c :: cs, i, bc, si, instr, esc =>
    if esc then efjoAux cs (i + 1) bc si instr false
    else if c = '\\' && instr then efjoAux cs (i + 1) bc si instr true
    else if c = '"' then efjoAux cs (i + 1) bc si (!instr) esc
    else if !instr && c = '{' then
      efjoAux cs (i + 1) (bc + 1) (if bc = 0 then some i else si) instr esc
    else if !instr && c = '}' then
      if bc - 1 = 0 then
        match si with
        | some s => some (s, i)
        | none => efjoAux cs (i + 1) (bc - 1) si instr esc
      else efjoAux cs (i + 1) (bc - 1) si instr esc
    else efjoAux cs (i + 1) bc si instr esc

/-- `extract_first_json_object(text)`: substring `text[start:i+1]` of the first
complete object found by the scan, else `None`. -/
def extract_first_json_object (text : String) : Option String :=
  match efjoAux text.data 0 0 none false false with
  | some (s, e) => some (String.mk ((text.data.drop s).take (e + 1 - s)))
  | none => none

/-! ## Python string helpers -/

/-- Does the pattern `pat` occur in `cs` starting at index `i`? -/
def patAt (cs pat : List Char) (i : Nat) : Bool := (cs.drop i).take pat.length = pat

/-- Python `str.find(sub, start)`: least index `i ≥ start` where `sub` occurs
(as `Option` instead of `-1`). -/
def strFind (cs pat : List Char) (start : Nat) : Option Nat :=
  (List.range (cs.length + 1)).find? (fun i => start ≤ i && patAt cs pat i)

/-- Python `str.rfind(c, start, stop)` for a single character: greatest index
`i` with `start ≤ i < stop` holding `c` (as `Option` instead of `-1`). -/
def strRfind (cs : List Char) (c : Char) (start stop : Nat) : Option Nat :=
  (List.range stop).reverse.find? (fun i => start ≤ i && cs[i]? = some c)

/-- Python `sub in s` substring test. -/
def strContains (s sub : List Char) : Bool :=
  (List.range (s.length + 1)).any (fun i => patAt s sub i)

/-! ## Fenced ```json code blocks

`re.findall(r'```json\s*\n?(.*?)\n?```', text, re.DOTALL)` specialised to this
pattern's backtracking behaviour: a match starts at each occurrence of the
literal ```` ```json ````; the greedy `\s*` then consumes the maximal
whitespace run (after which `\n?` is necessarily empty); the lazy `(.*?)`
stops at the earliest following ```` ``` ````, with the greedy trailing `\n?`
absorbing one newline just before it when present.  If no closing
```` ``` ```` exists the scan is over (no later match can start, since any
later ```` ```json ```` would itself contain a closing run).  `re.findall`
resumes after the end of each match.  (`\s` is modelled by the six ASCII
whitespace characters; Python would also accept rare Unicode whitespace.) -/

def pySpace (c : Char) : Bool :=
  c = ' ' || c = '\t' || c = '\n' || c = '\r' || c = '\x0b' || c = '\x0c'

def fencedAux (cs : List Char) : Nat → Nat → List (List Char)
  | 0, _ => []
  | fuel + 1, pos =>
    match strFind cs ['`', '`', '`', 'j', 's', 'o', 'n'] pos with
    | none => []
    | some k =>
      let p := k + 7
      let p' := p + ((cs.drop p).takeWhile pySpace).length
      match strFind cs ['`', '`', '`'] p' with
      | none => []
      | some q =>
        let content :=
          if p' < q && cs[q - 1]? = some '\n' then (cs.drop p').take (q - 1 - p')
          else (cs.drop p').take (q - p')
        content :: fencedAux cs fuel (q + 3)

def fencedBlocks (text : String) : List String :=
  (fencedAux text.data (text.length + 1) 0).map String.mk

/-! ## Mode signatures and `matches_mode`

`matches_mode` evaluates Python `field in parsed`.  That expression is key
membership for a dict, element membership for a list, substring containment
for a str, and an uncaught `TypeError` for numbers, booleans and `None` —
modelled in `Except Unit`. -/

def mode_signatures : List (String × List String) :=
  [("review", ["findings", "overall_correctness"]),
   ("analyze", ["change_summary", "file_changes"]),
   ("priority", ["review_summary", "priority_areas"])]

def sigLookup (m : String) : Option (List String) :=
  (mode_signatures.find? (fun p => p.1 = m)).map (fun p => p.2)

/-- Python `field in parsed` for a string `field`. -/
def pyInStr (field : String) (parsed : Json) : Except Unit Bool :=
  match parsed with
  | .obj kvs => .ok (kvs.any (fun kv => kv.1 = field))
  | .arr xs => .ok (xs.any (fun x => match x with | .str t => t = field | _ => false))
  | .str s => .ok (strContains s.data field.data)
  | _ => .error ()

/-- Python `all(field in parsed for field in fields)` (short-circuiting). -/
def allFieldsIn : List String → Json → Except Unit Bool
  | [], _ => .ok true
  | f :: rest, p => do
    let b ← pyInStr f p
    if b then allFieldsIn rest p else pure false

def matches_mode (parsed : Json) (target_mode : String) : Except Unit Bool :=
  match sigLookup target_mode with
  | none => .ok true
  | some sig_fields => allFieldsIn sig_fields parsed

/-! ## `extract_json_from_text`: the four-stage strategy chain

The Python function is a sequence of four blocks with early returns
(json_utils.py lines 87–171); each block is one `stage*` definition below and
the early-return composition is `extract_json_from_text`. -/

/-- Stage 1 (lines 87–93): parse the whole text; only `JSONDecodeError` is
caught. -/
def stage1 (text : String) (mode : Option String) : Except Unit (Option Json) :=
  match jsonLoads text with
  | none => .ok none
  | some parsed =>
    match mode with
    | none => .ok (some parsed)
    | some m => do
      let b ← matches_mode parsed m
      pure (if b then some parsed else none)

/-- Stage 2 (lines 95–105): try each fenced block in order. -/
def stage2 : List String → Option String → Except Unit (Option Json)
  | [], _ => .ok none
  | blk :: rest, mode =>
    match jsonLoads blk with
    | none => stage2 rest mode
    | some parsed =>
      match mode with
      | none => .ok (some parsed)
      | some m => do
        let b ← matches_mode parsed m
        if b then pure (some parsed) else stage2 rest mode

/-- Stage 3 while-loop (lines 112–135): search for the quoted first signature
field from `searchStart`, walk back to the nearest `'{'` at or after
`searchStart`, scan an object there, and advance past the occurrence on
failure. -/
def stage3Loop (text : String) (m : String) (firstField : String) :
    Nat → Nat → Except Unit (Option Json)
  | _, 0 => .ok none
  | searchStart, fuel + 1 =>
    match strFind text.data ('"' :: firstField.data ++ ['"']) searchStart with
    | none => .ok none
    | some pos1 =>
      match strRfind text.data '{' searchStart pos1 with
      | none => stage3Loop text m firstField (pos1 + 1) fuel
      | some braceStart =>
        match extract_first_json_object (String.mk (text.data.drop braceStart)) with
        | none => stage3Loop text m firstField (pos1 + 1) fuel
        | some jsonStr =>
          match jsonLoads jsonStr with
          | none => stage3Loop text m firstField (pos1 + 1) fuel
          | some parsed => do
            let b ← matches_mode parsed m
            if b then pure (some parsed)
            else stage3Loop text m firstField (pos1 + 1) fuel

/-- Stage 3 (lines 107–135), guarded by `mode and mode in mode_signatures`. -/
def stage3 (text : String) (mode : Option String) : Except Unit (Option Json) :=
  match mode with
  | none => .ok none
  | some m =>
    match sigLookup m with
    | none => .ok none
    | some [] => .ok none
    | some (firstField :: _) => stage3Loop text m firstField 0 (text.length + 1)

/-- Python `any(all(field in parsed for field in sig) for sig in signatures)`
from stage 4's mode-less branch (lines 160–162). -/
def anySigMatch : List (String × List String) → Json → Except Unit Bool
  | [], _ => .ok false
  | (_, sig) :: rest, p => do
    let b ← allFieldsIn sig p
    if b then pure true else anySigMatch rest p

/-- Stage 4 loop (lines 138–169): enumerate brace-balanced spans — with *no*
string-awareness, unlike `efjoAux` — and try to parse and match each. -/
def stage4Loop (text : String) (mode : Option String) :
    List Char → Nat → Int → Option Nat → Except Unit (Option Json)
  | [], _, _, _ => .ok none
  | c :: cs, i, bc, si =>
    if c = '{' then
      stage4Loop text mode cs (i + 1) (bc + 1) (if bc = 0 then some i else si)
    else if c = '}' then
      if bc - 1 = 0 then
        match si with
        | none => stage4Loop text mode cs (i + 1) (bc - 1) si
        | some s =>
          match jsonLoads (String.mk ((text.data.drop s).take (i + 1 - s))) with
          | none => stage4Loop text mode cs (i + 1) (bc - 1) none
          | some parsed =>
            match mode with
            | some m => do
              let b ← matches_mode parsed m
              if b then pure (some parsed)
              else stage4Loop text mode cs (i + 1) (bc - 1) none
            | none => do
              let b ← anySigMatch mode_signatures parsed
              if b then pure (some parsed)
              else
                match parsed with
                | .obj _ => pure (some parsed)
                | _ => stage4Loop text mode cs (i + 1) (bc - 1) none
      else stage4Loop text mode cs (i + 1) (bc - 1) si
    else stage4Loop text mode cs (i + 1) bc si

/-- `extract_json_from_text(text, mode)` (json_utils.py lines 57–171): the
four stages in order, stopping at the first that returns a candidate.
`Except.error ()` models an uncaught `TypeError` escaping the call. -/
def extract_json_from_text (text : String) (mode : Option String) :
    Except Unit (Option Json) := do
  match ← stage1 text mode with
  | some p => pure (some p)
  | none =>
    match ← stage2 (fencedBlocks text) mode with
    | some p => pure (some p)
    | none =>
      match ← stage3 text mode with
      | some p => pure (some p)
      | none => stage4Loop text mode text.data 0 0 none

/-! ## `validate_review_schema` -/

/-- Python `d[k]` subscripting: value lookup for a dict (`KeyError` and the
`TypeError` of subscripting a non-dict by a string are both uncaught). -/
def pyGet (d : Json) (k : String) : Except Unit Json :=
  match d with
  | .obj kvs =>
    match kvs.find? (fun kv => kv.1 = k) with
    | some kv => .ok kv.2
    | none => .error ()
  | _ => .error ()

/-- The per-finding loop of `validate_review_schema` (lines 197–210). -/
def validateFindings : List Json → Except Unit Bool
  | [] => .ok true
  | finding :: rest => do
    let b ← allFieldsIn ["title", "body", "confidence_score", "code_location"] finding
    if !b then pure false
    else do
      let cl ← pyGet finding "code_location"
      let b1 ← pyInStr "absolute_file_path" cl
      if !b1 then pure false
      else do
        let b2 ← pyInStr "line_range" cl
        if !b2 then pure false else validateFindings rest

/-- `validate_review_schema(data)` (json_utils.py lines 174–218). -/
def validate_review_schema (data : Json) : Except Unit Bool := do
  let b ← allFieldsIn
    ["findings", "overall_correctness", "overall_explanation", "overall_confidence_score"] data
  if !b then pure false
  else do
    let f ← pyGet data "findings"
    match f with
    | .arr findings => do
      let bf ← validateFindings findings
      if !bf then pure false
      else do
        let oc ← pyGet data "overall_correctness"
        pure (oc = Json.str "patch is correct" || oc = Json.str "patch is incorrect")
    | _ => pure false

/-- `create_fallback_review(error_msg)` (json_utils.py lines 221–236). -/
def create_fallback_review (error_msg : String) : Json :=
  .obj [("findings", .arr []),
        ("overall_correctness", .str "patch is correct"),
        ("overall_explanation",
          .str ("Review 解析失败: " ++ error_msg ++ "。请查看原始输出文件。")),
        ("overall_confidence_score", .num 0 1)]

/-! ## `format_json`: Python `json.dumps(data, ensure_ascii=False, indent=2)` -/

def hexDigitChar (n : Nat) : Char :=
  if n < 10 then Char.ofNat (48 + n) else Char.ofNat (87 + n)

/-- Python's `ESCAPE_DCT` with `ensure_ascii=False`: escape `"`, `\`, the five
named control characters, and other control characters as `\u00xx`; everything
else (including all non-ASCII) passes through unescaped. -/
def escapeChar (c : Char) : List Char :=
  if c = '"' then ['\\', '"']
  else if c = '\\' then ['\\', '\\']
  else if c = '\n' then ['\\', 'n']
  else if c = '\r' then ['\\', 'r']
  else if c = '\t' then ['\\', 't']
  else if c.toNat = 8 then ['\\', 'b']
  else if c.toNat = 12 then ['\\', 'f']
  else if c.toNat < 0x20 then
    ['\\', 'u', '0', '0', hexDigitChar (c.toNat / 16), hexDigitChar (c.toNat % 16)]
  else [c]

def escList (cs : List Char) : List Char := (cs.map escapeChar).flatten

/-- Decimal digits of `n`, least significant first; the fuel (any bound on the
number of digits, `n` itself suffices) only makes the recursion structural. -/
def natDigitsRev : Nat → Nat → List Nat
  | 0, _ => []
  | fuel + 1, n => if n = 0 then [] else n % 10 :: natDigitsRev fuel (n / 10)

/-- Decimal digits of `n`, most significant first (`"0"` for zero). -/
def natRepr (n : Nat) : List Char :=
  if n = 0 then ['0'] else (natDigitsRev n n).reverse.map (fun d => Char.ofNat (48 + d))

/-- Serialisation of `num m s`: the integer repr for `s = 0`, else the digits
of `|m|` padded to at least `s + 1` digits with the decimal point inserted
before the last `s` of them. -/
def numRepr (m : Int) (s : Nat) : List Char :=
  let sign : List Char := if m < 0 then ['-'] else []
  let ds := natRepr m.natAbs
  if s = 0 then sign ++ ds
  else
    let ds := if ds.length ≤ s then List.replicate (s + 1 - ds.length) '0' ++ ds else ds
    sign ++ ds.take (ds.length - s) ++ '.' :: ds.drop (ds.length - s)

/-- Newline plus the indentation of nesting level `k` at `w` spaces per
level. -/
def nlIndent (w k : Nat) : List Char := '\n' :: List.replicate (w * k) ' '

/-- The serialiser's keyword literal for `None`. -/
def litNull : List Char := ['n', 'u', 'l', 'l']

/-- The serialiser's keyword literal for `True`. -/
def litTrue : List Char := ['t', 'r', 'u', 'e']

/-- The serialiser's keyword literal for `False`. -/
def litFalse : List Char := ['f', 'a', 'l', 's', 'e']

mutual

/-- `json.dumps` with `ensure_ascii=False` and indent width `w`, at nesting
level `level`. -/
def dumpVal (w level : Nat) : Json → List Char
  | .null => litNull
  | .bool true => litTrue
  | .bool false => litFalse
  | .num m s => numRepr m s
  | .str s => '"' :: (escList s.data ++ ['"'])
  | .arr [] => ['[', ']']
  | .arr (x :: xs) =>
    '[' :: (nlIndent w (level + 1) ++ dumpVal w (level + 1) x ++ dumpArrTail w level xs)
  | .obj [] => ['{', '}']
  | .obj ((k, v) :: kvs) =>
    '{' :: (nlIndent w (level + 1) ++ '"' :: (escList k.data ++ ['"', ':', ' ']
      ++ dumpVal w (level + 1) v ++ dumpObjTail w level kvs))

def dumpArrTail (w level : Nat) : List Json → List Char
  | [] => nlIndent w level ++ [']']
  | y :: ys =>
    ',' :: (nlIndent w (level + 1) ++ dumpVal w (level + 1) y ++ dumpArrTail w level ys)

def dumpObjTail (w level : Nat) : List (String × Json) → List Char
  | [] => nlIndent w level ++ ['}']
  | (k, v) :: kvs =>
    ',' :: (nlIndent w (level + 1) ++ '"' :: (escList k.data ++ ['"', ':', ' ']
      ++ dumpVal w (level + 1) v ++ dumpObjTail w level kvs))

end

/-- `format_json(data)` with the default `indent=2`. -/
def format_json (data : Json) : String := String.mk (dumpVal 2 0 data)

/-! ## Span enumerations for the two depth-tracking logics -/

/-- The candidate spans submitted to `json.loads` by the stage-4 loop (lines
138–169): same scan skeleton as `stage4Loop`, recording every span. -/
def spans4Aux : List Char → Nat → Int → Option Nat → List (Nat × Nat)
  | [], _, _, _ => []
  | c :: cs, i, bc, si =>
    if c = '{' then spans4Aux cs (i + 1) (bc + 1) (if bc = 0 then some i else si)
    else if c = '}' then
      if bc - 1 = 0 then
        match si with
        | some s => (s, i) :: spans4Aux cs (i + 1) (bc - 1) none
        | none => spans4Aux cs (i + 1) (bc - 1) si
      else spans4Aux cs (i + 1) (bc - 1) si
    else spans4Aux cs (i + 1) bc si

def spans4 (cs : List Char) : List (Nat × Nat) := spans4Aux cs 0 0 none

/-- The spans the bracket-matching scanner delimits when run repeatedly, each
time restarting just after the previously extracted object. -/
def scannerSpansAux : Nat → List Char → Nat → List (Nat × Nat)
  | 0, _, _ => []
  | fuel + 1, cs, off =>
    match efjoAux cs 0 0 none false false with
    | none => []
    | some (s, e) => (off + s, off + e) :: scannerSpansAux fuel (cs.drop (e + 1)) (off + e + 1)

def scannerSpans (cs : List Char) : List (Nat × Nat) := scannerSpansAux (cs.length + 1) cs 0

/-! ## Specification-side definitions

The following definitions are written from the specification's words (spec.md
§4.1–§4.3 and the claims), to be compared against the source-side definitions
above. -/

def objGet? (kvs : List (String × Json)) (k : String) : Option Json :=
  (kvs.find? (fun kv => kv.1 = k)).map (fun kv => kv.2)

def hasKey (kvs : List (String × Json)) (k : String) : Bool :=
  kvs.any (fun kv => kv.1 = k)

/-- Spec §4.2 (Schema Matcher): a candidate is mode-matched when every
signature field of the mode exists as a top-level key of the candidate
object; unknown modes match everything. -/
def specMatch (p : Json) (m : String) : Bool :=
  match sigLookup m with
  | none => true
  | some sig =>
    match p with
    | .obj kvs => sig.all (fun f => hasKey kvs f)
    | _ => false

/-- Spec strategy 1: parse the entire text as one JSON value and mode-match
it. -/
def specStrat1 (text : String) (m : String) : Option Json :=
  match jsonLoads text with
  | some p => if specMatch p m then some p else none
  | none => none

/-- Spec strategy 2: parse each fenced ```json block in source order and
return the first mode-matched one. -/
def specStrat2 (text : String) (m : String) : Option Json :=
  (fencedBlocks text).findSome? (fun blk =>
    match jsonLoads blk with
    | some p => if specMatch p m then some p else none
    | none => none)

/-- Spec strategy 3: for each occurrence of the quoted first signature field
(the search cursor advancing past each examined occurrence, per spec §9),
walk back to the nearest preceding `'{'` in the unconsumed region, extract
the balanced object there, and mode-match it. -/
def specStrat3Loop (text : String) (m : String) (firstField : String) :
    Nat → Nat → Option Json
  | _, 0 => none
  | searchStart, fuel + 1 =>
    match strFind text.data ('"' :: firstField.data ++ ['"']) searchStart with
    | none => none
    | some pos1 =>
      match strRfind text.data '{' searchStart pos1 with
      | none => specStrat3Loop text m firstField (pos1 + 1) fuel
      | some braceStart =>
        match extract_first_json_object (String.mk (text.data.drop braceStart)) with
        | none => specStrat3Loop text m firstField (pos1 + 1) fuel
        | some jsonStr =>
          match jsonLoads jsonStr with
          | none => specStrat3Loop text m firstField (pos1 + 1) fuel
          | some parsed =>
            if specMatch parsed m then some parsed
            else specStrat3Loop text m firstField (pos1 + 1) fuel

def specStrat3 (text : String) (m : String) : Option Json :=
  match sigLookup m with
  | none => none
  | some [] => none
  | some (firstField :: _) => specStrat3Loop text m firstField 0 (text.length + 1)

/-- Spec strategy 4: enumerate every top-level balanced object span in the
text and mode-match each. -/
def specStrat4 (text : String) (m : String) : Option Json :=
  (spans4 text.data).findSome? (fun sp =>
    match jsonLoads (String.mk ((text.data.drop sp.1).take (sp.2 + 1 - sp.1))) with
    | some p => if specMatch p m then some p else none
    | none => none)

/-- The strategy chain of spec §4.3 / claim C1: the four strategies in this
fixed order, the first mode-matched candidate winning. -/
def chainSpec (text : String) (m : String) : Option Json :=
  match specStrat1 text m with
  | some p => some p
  | none =>
    match specStrat2 text m with
    | some p => some p
    | none =>
      match specStrat3 text m with
      | some p => some p
      | none => specStrat4 text m

/-- The extraction chain with the mode-anchored field-search strategy removed
(for claim C10: unknown modes skip it). -/
def extractNoStage3 (text : String) (mode : Option String) :
    Except Unit (Option Json) := do
  match ← stage1 text mode with
  | some p => pure (some p)
  | none =>
    match ← stage2 (fencedBlocks text) mode with
    | some p => pure (some p)
    | none => stage4Loop text mode text.data 0 0 none

/-! ### The scanner's contract (spec §4.1) -/

/-- State of the string/escape/depth automaton of spec §4.1: one scan step. -/
structure ScanSt where
  instr : Bool
  esc : Bool
  depth : Int
  deriving Repr, DecidableEq

def scanInit : ScanSt := ⟨false, false, 0⟩

def scanStep (st : ScanSt) (c : Char) : ScanSt :=
  if st.esc then ⟨st.instr, false, st.depth⟩
  else if c = '\\' && st.instr then ⟨st.instr, true, st.depth⟩
  else if c = '"' then ⟨!st.instr, st.esc, st.depth⟩
  else if !st.instr && c = '{' then ⟨st.instr, st.esc, st.depth + 1⟩
  else if !st.instr && c = '}' then ⟨st.instr, st.esc, st.depth - 1⟩
  else st

def scanList (st : ScanSt) (cs : List Char) : ScanSt := cs.foldl scanStep st

/-- Automaton state just before index `k`. -/
def scanPre (cs : List Char) (k : Nat) : ScanSt := scanList scanInit (cs.take k)

/-- Index `k` holds a countable (outside-string) `'{'` at depth 0: a
candidate start per spec §4.1 ("a `{` at depth 0 marks a candidate start"). -/
def topOpen (cs : List Char) (k : Nat) : Bool :=
  cs[k]? = some '{' && !(scanPre cs k).instr && !(scanPre cs k).esc
    && (scanPre cs k).depth = 0

/-- Index `k` holds a countable `'}'` returning the depth to 0. -/
def topClose (cs : List Char) (k : Nat) : Bool :=
  cs[k]? = some '}' && !(scanPre cs k).instr && !(scanPre cs k).esc
    && (scanPre cs (k + 1)).depth = 0

/-- The span of the first syntactically balanced top-level `{...}` object:
the first candidate-start index matched with the first depth-restoring
countable `'}'` after it. -/
def firstBalancedSpan (cs : List Char) : Option (Nat × Nat) :=
  match (List.range cs.length).find? (fun i => topOpen cs i) with
  | none => none
  | some i =>
    match (List.range cs.length).find? (fun j => i < j && topClose cs j) with
    | none => none
    | some j => some (i, j)

/-- Spec §4.1's contract for the scanner: the exact substring of the first
balanced top-level object, or nothing. -/
def firstBalancedObject (text : String) : Option String :=
  match firstBalancedSpan text.data with
  | some (i, j) => some (String.mk ((text.data.drop i).take (j + 1 - i)))
  | none => none

/-- Least candidate-start index below `k`. -/
def firstOpenIdx (cs : List Char) (k : Nat) : Option Nat :=
  (List.range k).find? (fun i => topOpen cs i)

/-- The scan would return at index `j`: a depth-restoring countable `'}'`
with a candidate start recorded before it. -/
def trigger (cs : List Char) (j : Nat) : Prop :=
  topClose cs j = true ∧ ∃ i, i < j ∧ topOpen cs i = true

/-! ### Claim-side schema predicates (C6, C9) -/

/-- C9's Finding contract for the `line_range` attribute: a two-element
sequence or an object with `start` and `end` fields. -/
def lineRangeOk (lr : Json) : Bool :=
  match lr with
  | .arr [_, _] => true
  | .obj kvs => hasKey kvs "start" && hasKey kvs "end"
  | _ => false

/-- C9's Finding contract: `title`/`body` strings, `confidence_score` a
number within `[0, 1]`, `code_location` an object with a string
`absolute_file_path` and a well-shaped `line_range`. -/
def findingContract (f : Json) : Bool :=
  match f with
  | .obj kvs =>
    (match objGet? kvs "title" with | some (.str _) => true | _ => false) &&
    (match objGet? kvs "body" with | some (.str _) => true | _ => false) &&
    (match objGet? kvs "confidence_score" with
     | some (.num m s) => 0 ≤ m && m ≤ 10 ^ s
     | _ => false) &&
    (match objGet? kvs "code_location" with
     | some (.obj ckvs) =>
       (match objGet? ckvs "absolute_file_path" with
        | some (.str _) => true | _ => false) &&
       (match objGet? ckvs "line_range" with
        | some lr => lineRangeOk lr | none => false)
     | _ => false)
  | _ => false

/-- Every finding of `d` satisfies C9's Finding contract. -/
def allFindingsContract (d : Json) : Bool :=
  match d with
  | .obj kvs =>
    match objGet? kvs "findings" with
    | some (.arr fs) => fs.all findingContract
    | _ => false
  | _ => false

/-- C9 amended: the presence facts the validator actually guarantees for one
finding — the four field-membership tests succeed and hold, and the
`code_location` value passes both membership tests. -/
def findingPresence (f : Json) : Prop :=
  pyInStr "title" f = .ok true ∧ pyInStr "body" f = .ok true ∧
  pyInStr "confidence_score" f = .ok true ∧ pyInStr "code_location" f = .ok true ∧
  ∃ cl, pyGet f "code_location" = .ok cl ∧
    pyInStr "absolute_file_path" cl = .ok true ∧ pyInStr "line_range" cl = .ok true

/-- One finding's share of C6's conditions: it is an object containing the
four required keys, and its `code_location` is an object containing the two
required keys. -/
def findingKeysOk (f : Json) : Bool :=
  match f with
  | .obj fkvs =>
    (["title", "body", "confidence_score", "code_location"].all
      (fun x => hasKey fkvs x)) &&
    (match objGet? fkvs "code_location" with
     | some (.obj ckvs) => hasKey ckvs "absolute_file_path" && hasKey ckvs "line_range"
     | _ => false)
  | _ => false

/-- The conditions of claim C6, with "contains" read as key containment in an
object. -/
def reviewSchemaConditions (d : Json) : Bool :=
  match d with
  | .obj kvs =>
    (["findings", "overall_correctness", "overall_explanation",
      "overall_confidence_score"].all (fun x => hasKey kvs x)) &&
    (match objGet? kvs "findings" with
     | some (.arr fs) => fs.all findingKeysOk
     | _ => false) &&
    (objGet? kvs "overall_correctness" = some (.str "patch is correct") ||
     objGet? kvs "overall_correctness" = some (.str "patch is incorrect"))
  | _ => false

/-- One finding's share of the C6-amended hypothesis: when the finding is an
object that has a `code_location` value, that value is itself an object. -/
def clObjOkF (f : Json) : Bool :=
  match f with
  | .obj fkvs =>
    match objGet? fkvs "code_location" with
    | some (.obj _) => true
    | some _ => false
    | none => true
  | _ => true

/-- Hypothesis of C6 amended: every finding's `code_location` value (when the
finding is an object that has one) is itself an object. -/
def clObjsOk (d : Json) : Bool :=
  match d with
  | .obj kvs =>
    match objGet? kvs "findings" with
    | some (.arr fs) => fs.all clObjOkF
    | _ => true
  | _ => true

/-- Python `field in p` restricted to the non-raising candidate types, as a
Bool. -/
def pyInB (field : String) (p : Json) : Bool :=
  match p with
  | .obj kvs => hasKey kvs field
  | .arr xs => xs.any (fun x => match x with | .str t => t = field | _ => false)
  | .str s => strContains s.data field.data
  | _ => false

/-! ### Concrete data used by the counterexamples -/

/-- First of two concatenated review objects; its `findings` string contains a
fenced block whose content `123` parses as a bare number. -/
def c3text1 : String :=
  "\x7b\"findings\": [\"```json123```\"], \"overall_correctness\": \"c\"\x7d"

/-- Second of the two concatenated review objects. -/
def c3text2 : String :=
  "\x7b\"findings\": [], \"overall_correctness\": \"d\"\x7d"

/-- A text whose single top-level object holds a `'}'` inside a string
value. -/
def c5text : String := "x\x7b\"a\": \"\x7d\"\x7d"

/-- Review object whose finding has a two-element *list* `code_location`
holding the two required field names as elements. -/
def c6data : Json :=
  .obj [("findings", .arr [.obj [("title", .str "t"), ("body", .str "b"),
          ("confidence_score", .num 9 1),
          ("code_location", .arr [.str "absolute_file_path", .str "line_range"])]]),
        ("overall_correctness", .str "patch is correct"),
        ("overall_explanation", .str "e"),
        ("overall_confidence_score", .num 0 1)]

/-- Review object accepted by the validator whose finding violates every
typing clause of the Finding contract. -/
def c9data : Json :=
  .obj [("findings", .arr [.obj [("title", .num 5 0), ("body", .num 6 0),
          ("confidence_score", .num 99 0),
          ("code_location", .obj [("absolute_file_path", .num 1 0),
            ("line_range", .num 2 0)])]]),
        ("overall_correctness", .str "patch is correct"),
        ("overall_explanation", .str "e"),
        ("overall_confidence_score", .num 1 0)]

/-! ## Scanner equivalence (claim C4) -/

/-! ## `format_json` round trip: good values and parser fuel -/

/-- `k` does not occur among the keys of `kvs`. -/
def keyFresh (k : String) (kvs : List (String × Json)) : Bool :=
  kvs.all (fun kv => !(kv.1 == k))

mutual

/-- The value is built from genuine Python data: every object's keys are
distinct (a Python dict cannot hold duplicate keys). -/
def goodJson : Json → Bool
  | .arr xs => goodList xs
  | .obj kvs => goodMems kvs
  | _ => true

def goodList : List Json → Bool
  | [] => true
  | x :: xs => goodJson x && goodList xs

def goodMems : List (String × Json) → Bool
  | [] => true
  | (k, v) :: kvs => keyFresh k kvs && goodJson v && goodMems kvs

end

/-- The continuation after a serialised number may not begin with a character
the number parser would consume. -/
def numStop : List Char → Prop
  | [] => True
  | c :: _ => isDigit c = false ∧ c ≠ '.' ∧ c ≠ 'e' ∧ c ≠ 'E'

/-- A concrete good value exercising objects, arrays, strings with escapes and
non-ASCII content, and a negative float. -/
def c8dd : Json :=
  .obj [("findings", .arr [.null, .bool true, .obj []]),
        ("número", .str "h\"é\nllo"),
        ("x", .num (-35) 1)]

/-- Witness text for the C1 amended chain: whole-text parse fails (leading
`x`), no fenced blocks, and strategies 3/4 find the object. -/
def c1text : String := "x \x7b\"findings\": [], \"overall_correctness\": \"c\"\x7d"

theorem scanPre_succ (cs : List Char) (k : Nat) (c : Char) (h : cs[k]? = some c) :
    scanPre cs (k + 1) = scanStep (scanPre cs k) c := by
  unfold scanPre scanList
  rw [List.take_succ, h]
  simp

theorem find?_range_eq_none {p : Nat → Bool} {n : Nat} :
    (List.range n).find? p = none ↔ ∀ j, j < n → p j = false := by
  rw [List.find?_eq_none]
  constructor
  · intro h j hj
    have := h j (List.mem_range.mpr hj)
    simpa using this
  · intro h x hx
    simp [h x (List.mem_range.mp hx)]

theorem find?_range_eq_some {p : Nat → Bool} {n i : Nat} :
    (List.range n).find? p = some i ↔ i < n ∧ p i = true ∧ ∀ j, j < i → p j = false := by
  induction n generalizing i with
  | zero => simp [List.range_zero]
  | succ n ih =>
    rw [List.range_succ, List.find?_append]
    cases h : (List.range n).find? p with
    | some x =>
      obtain ⟨hxn, hpx, hleast⟩ := (ih (i := x)).mp h
      simp only [Option.or_some, Option.some.injEq]
      constructor
      · rintro rfl
        exact ⟨by omega, hpx, hleast⟩
      · rintro ⟨hin, hpi, hleasti⟩
        rcases Nat.lt_trichotomy x i with hlt | rfl | hgt
        · exact absurd hpx (by simp [hleasti x hlt])
        · rfl
        · exact absurd hpi (by simp [hleast i hgt])
    | none =>
      have hnone := find?_range_eq_none.mp h
      cases hpn : p n with
      | true =>
        have hsing : List.find? p [n] = some n := by
          simp [List.find?, hpn]
        rw [hsing]
        simp only [Option.none_or, Option.some.injEq]
        constructor
        · rintro rfl
          exact ⟨by omega, hpn, hnone⟩
        · rintro ⟨hin, hpi, _⟩
          rcases Nat.lt_or_ge i n with hlt | hge
          · exact absurd hpi (by simp [hnone i hlt])
          · omega
      | false =>
        have hsing : List.find? p [n] = none := by
          simp [List.find?, hpn]
        rw [hsing]
        simp only [Option.none_or]
        constructor
        · intro h2
          exact absurd h2 (by simp)
        · rintro ⟨hin, hpi, _⟩
          rcases Nat.lt_or_ge i n with hlt | hge
          · exact absurd hpi (by simp [hnone i hlt])
          · have hieq : i = n := by omega
            rw [hieq] at hpi
            exact absurd hpi (by simp [hpn])

theorem firstOpenIdx_succ (cs : List Char) (k : Nat) :
    firstOpenIdx cs (k + 1) =
      (firstOpenIdx cs k).or (if topOpen cs k then some k else none) := by
  unfold firstOpenIdx
  rw [List.range_succ, List.find?_append]
  congr 1
  cases h : topOpen cs k <;> simp [List.find?, h]



theorem topOpen_char {cs : List Char} {k : Nat} (h : topOpen cs k = true) :
    cs[k]? = some '{' ∧ (scanPre cs k).instr = false ∧ (scanPre cs k).esc = false ∧
      (scanPre cs k).depth = 0 := by
  unfold topOpen at h
  simp only [Bool.and_eq_true, Bool.not_eq_true', decide_eq_true_eq] at h
  exact ⟨h.1.1.1, h.1.1.2, h.1.2, h.2⟩

theorem depth_pos_until (cs : List Char) (s k : Nat) (hk : k ≤ cs.length)
    (hOpen : topOpen cs s = true) (hnt : ∀ j, j < k → ¬ trigger cs j) :
    ∀ j, s < j → j ≤ k → 1 ≤ (scanPre cs j).depth := by
  intro j
  induction j with
  | zero => omega
  | succ j ih =>
    intro hsj hjk
    have hjlen : j < cs.length := by omega
    have hc : cs[j]? = some cs[j] := List.getElem?_eq_getElem hjlen
    rcases Nat.lt_or_ge s j with hlt | hge
    · have hd := ih hlt (by omega)
      rw [scanPre_succ cs j cs[j] hc]
      unfold scanStep
      split_ifs with h1 h2 h3 h4 h5
      · exact hd
      · exact hd
      · exact hd
      · simp only []
        omega
      · -- countable '}' step
        simp only []
        rcases (by omega : (2:Int) ≤ (scanPre cs j).depth ∨ (scanPre cs j).depth = 1) with h6 | h6
        · omega
        · exfalso
          apply hnt j (by omega)
          refine ⟨?_, s, hlt, hOpen⟩
          unfold topClose
          simp only [Bool.and_eq_true, Bool.not_eq_true', decide_eq_true_eq]
          have hinstr : (scanPre cs j).instr = false := by
            simp only [Bool.and_eq_true, Bool.not_eq_true'] at h5
            exact h5.1
          have hcj : cs[j] = '}' := by
            simp only [Bool.and_eq_true, Bool.not_eq_true', decide_eq_true_eq] at h5
            exact h5.2
          have hesc : (scanPre cs j).esc = false := by
            simpa using h1
          refine ⟨⟨⟨by rw [hc, hcj], hinstr⟩, hesc⟩, ?_⟩
          rw [scanPre_succ cs j cs[j] hc]
          unfold scanStep
          rw [if_neg (by simp [hesc]), if_neg (by simp [h2]), if_neg (by simp [h3]),
            if_neg (by simp [h4]), if_pos (by simp [h5])]
          simp only []
          omega
      · exact hd
    · have hsj' : s = j := by omega
      subst hsj'
      obtain ⟨hcs, hinstr, hesc, hdep⟩ := topOpen_char hOpen
      rw [scanPre_succ cs s '{' hcs]
      unfold scanStep
      rw [if_neg (by simp [hesc]), if_neg (by simp [hinstr]), if_neg (by simp),
        if_pos (by simp [hinstr])]
      simp only []
      omega



theorem no_reopen (cs : List Char) (k s : Nat) (hk : k ≤ cs.length) (hs : s < k)
    (hOpen : topOpen cs s = true) (hd : (scanPre cs k).depth = 0)
    (hnt : ∀ j, j < k → ¬ trigger cs j) : False := by
  have := depth_pos_until cs s k hk hOpen hnt k hs le_rfl
  omega

theorem fB_eq_none_of_noTrig (cs : List Char)
    (hnt : ∀ j, j < cs.length → ¬ trigger cs j) : firstBalancedSpan cs = none := by
  unfold firstBalancedSpan
  split
  · rfl
  · next i h1 =>
    split
    · rfl
    · next j h2 =>
      obtain ⟨hin, hOi, _⟩ := find?_range_eq_some.mp h1
      obtain ⟨hjn, hpj, _⟩ := find?_range_eq_some.mp h2
      simp only [Bool.and_eq_true, decide_eq_true_eq] at hpj
      exact absurd ⟨hpj.2, i, hpj.1, hOi⟩ (hnt j hjn)

theorem fB_eq_of_trigger (cs : List Char) (k s : Nat) (hk : k < cs.length)
    (hfo : firstOpenIdx cs k = some s) (hcl : topClose cs k = true)
    (hnt : ∀ j, j < k → ¬ trigger cs j) : firstBalancedSpan cs = some (s, k) := by
  obtain ⟨hsk, hOs, hleast⟩ := find?_range_eq_some.mp hfo
  have h1 : (List.range cs.length).find? (fun i => topOpen cs i) = some s := by
    rw [find?_range_eq_some]
    exact ⟨by omega, hOs, hleast⟩
  have h2 : (List.range cs.length).find? (fun j => s < j && topClose cs j) = some k := by
    rw [find?_range_eq_some]
    refine ⟨hk, by simp [hsk, hcl], ?_⟩
    intro j hj
    by_contra hcon
    simp only [Bool.and_eq_true, decide_eq_true_eq, Bool.not_eq_false] at hcon
    exact hnt j hj ⟨hcon.2, s, hcon.1, hOs⟩
  unfold firstBalancedSpan
  split
  · next h => rw [h1] at h; cases h
  · next i h =>
    rw [h1] at h
    have hi : i = s := (Option.some.inj h).symm
    subst hi
    split
    · next h' => rw [h2] at h'; cases h'
    · next j h' =>
      rw [h2] at h'
      have hj : j = k := (Option.some.inj h').symm
      subst hj
      rfl



theorem topOpen_false_char {cs : List Char} {k : Nat} {c : Char}
    (hck : cs[k]? = some c) (h : c ≠ '{') : topOpen cs k = false := by
  unfold topOpen
  simp [hck, h]

theorem topClose_false_char {cs : List Char} {k : Nat} {c : Char}
    (hck : cs[k]? = some c) (h : c ≠ '}') : topClose cs k = false := by
  unfold topClose
  simp [hck, h]

theorem topOpen_false_instr {cs : List Char} {k : Nat}
    (h : (scanPre cs k).instr = true) : topOpen cs k = false := by
  unfold topOpen
  simp [h]

theorem topClose_false_instr {cs : List Char} {k : Nat}
    (h : (scanPre cs k).instr = true) : topClose cs k = false := by
  unfold topClose
  simp [h]

theorem topOpen_false_esc {cs : List Char} {k : Nat}
    (h : (scanPre cs k).esc = true) : topOpen cs k = false := by
  unfold topOpen
  simp [h]

theorem topClose_false_esc {cs : List Char} {k : Nat}
    (h : (scanPre cs k).esc = true) : topClose cs k = false := by
  unfold topClose
  simp [h]

theorem topOpen_false_depth {cs : List Char} {k : Nat}
    (h : (scanPre cs k).depth ≠ 0) : topOpen cs k = false := by
  unfold topOpen
  simp [h]

theorem topClose_false_depth {cs : List Char} {k : Nat}
    (h : (scanPre cs (k + 1)).depth ≠ 0) : topClose cs k = false := by
  unfold topClose
  simp [h]

theorem noTrig_succ {cs : List Char} {k : Nat}
    (hnt : ∀ j, j < k → ¬ trigger cs j) (hcl : topClose cs k = false) :
    ∀ j, j < k + 1 → ¬ trigger cs j := by
  intro j hj
  rcases Nat.lt_or_ge j k with h | h
  · exact hnt j h
  · have : j = k := by omega
    subst this
    rintro ⟨hc, -⟩
    rw [hcl] at hc
    cases hc

theorem noTrig_succ_noOpen {cs : List Char} {k : Nat}
    (hnt : ∀ j, j < k → ¬ trigger cs j) (hSI : firstOpenIdx cs k = none) :
    ∀ j, j < k + 1 → ¬ trigger cs j := by
  intro j hj
  rcases Nat.lt_or_ge j k with h | h
  · exact hnt j h
  · have : j = k := by omega
    subst this
    rintro ⟨-, i, hik, hOi⟩
    have := find?_range_eq_none.mp hSI i hik
    rw [this] at hOi
    cases hOi



set_option maxHeartbeats 2000000 in
theorem efjoAux_eq (cs : List Char) :
    ∀ (suf : List Char) (k : Nat), cs.drop k = suf →
      (∀ j, j < k → ¬ trigger cs j) →
      efjoAux suf k (scanPre cs k).depth (firstOpenIdx cs k)
          (scanPre cs k).instr (scanPre cs k).esc = firstBalancedSpan cs := by
  intro suf
  induction suf with
  | nil =>
    intro k hdrop hnt
    have hlen : cs.length ≤ k := by
      have := congrArg List.length hdrop
      rw [List.length_drop] at this
      simp at this
      omega
    rw [fB_eq_none_of_noTrig cs (fun j hj => hnt j (by omega))]
    rfl
  | cons c rest ih =>
    intro k hdrop hnt
    have hlen : cs.length - k = rest.length + 1 := by
      have := congrArg List.length hdrop
      rw [List.length_drop] at this
      simpa using this
    have hk : k < cs.length := by omega
    have hck : cs[k]? = some c := by
      have h0 : (cs.drop k)[0]? = cs[k + 0]? := List.getElem?_drop cs k 0
      rw [hdrop] at h0
      simpa using h0.symm
    have hrest : cs.drop (k + 1) = rest := by
      have h1 : cs.drop (k + 1) = (cs.drop k).drop 1 := by
        rw [List.drop_drop]
      rw [h1, hdrop]
      rfl
    by_cases hE : (scanPre cs k).esc = true
    · -- escaped character: consumed, escape flag cleared
      simp only [efjoAux]
      rw [if_pos hE]
      have hstep : scanPre cs (k + 1) =
          ⟨(scanPre cs k).instr, false, (scanPre cs k).depth⟩ := by
        rw [scanPre_succ cs k c hck]
        unfold scanStep
        rw [if_pos hE]
      have hfoi : firstOpenIdx cs (k + 1) = firstOpenIdx cs k := by
        rw [firstOpenIdx_succ, topOpen_false_esc hE]
        simp
      have hih := ih (k + 1) hrest (noTrig_succ hnt (topClose_false_esc hE))
      rw [hstep, hfoi] at hih
      exact hih
    · by_cases hB : (c = '\\' && (scanPre cs k).instr) = true
      · -- backslash inside a string: escape flag set
        have hcB : c = '\\' := by
          simp only [Bool.and_eq_true, decide_eq_true_eq] at hB
          exact hB.1
        simp only [efjoAux]
        rw [if_neg hE, if_pos hB]
        have hstep : scanPre cs (k + 1) =
            ⟨(scanPre cs k).instr, true, (scanPre cs k).depth⟩ := by
          rw [scanPre_succ cs k c hck]
          unfold scanStep
          rw [if_neg hE, if_pos hB]
        have hfoi : firstOpenIdx cs (k + 1) = firstOpenIdx cs k := by
          rw [firstOpenIdx_succ, topOpen_false_char hck (by rw [hcB]; decide)]
          simp
        have hih := ih (k + 1) hrest
          (noTrig_succ hnt (topClose_false_char hck (by rw [hcB]; decide)))
        rw [hstep, hfoi] at hih
        exact hih
      · by_cases hQ : c = '"'
        · -- quote: string flag toggled
          simp only [efjoAux]
          rw [if_neg hE, if_neg hB, if_pos hQ]
          have hstep : scanPre cs (k + 1) =
              ⟨!(scanPre cs k).instr, (scanPre cs k).esc, (scanPre cs k).depth⟩ := by
            rw [scanPre_succ cs k c hck]
            unfold scanStep
            rw [if_neg hE, if_neg hB, if_pos hQ]
          have hfoi : firstOpenIdx cs (k + 1) = firstOpenIdx cs k := by
            rw [firstOpenIdx_succ, topOpen_false_char hck (by rw [hQ]; decide)]
            simp
          have hih := ih (k + 1) hrest
            (noTrig_succ hnt (topClose_false_char hck (by rw [hQ]; decide)))
          rw [hstep, hfoi] at hih
          exact hih
        · by_cases hOp : (!(scanPre cs k).instr && c = '{') = true
          · -- countable opening brace
            obtain ⟨hIf, hcOp⟩ : (scanPre cs k).instr = false ∧ c = '{' := by
              simp only [Bool.and_eq_true, Bool.not_eq_true', decide_eq_true_eq] at hOp
              exact hOp
            simp only [efjoAux]
            rw [if_neg hE, if_neg hB, if_neg hQ, if_pos hOp]
            have hstep : scanPre cs (k + 1) =
                ⟨(scanPre cs k).instr, (scanPre cs k).esc, (scanPre cs k).depth + 1⟩ := by
              rw [scanPre_succ cs k c hck]
              unfold scanStep
              rw [if_neg hE, if_neg hB, if_neg hQ, if_pos hOp]
            have hEf : (scanPre cs k).esc = false := by simpa using hE
            by_cases hD : (scanPre cs k).depth = 0
            · have hTop : topOpen cs k = true := by
                unfold topOpen
                rw [hcOp] at hck
                simp [hck, hIf, hEf, hD]
              have hSInone : firstOpenIdx cs k = none := by
                cases hSI : firstOpenIdx cs k with
                | none => rfl
                | some s =>
                  obtain ⟨hsk, hOs, _⟩ := find?_range_eq_some.mp hSI
                  exact (no_reopen cs k s (le_of_lt hk) hsk hOs hD hnt).elim
              have hfoi : firstOpenIdx cs (k + 1) = some k := by
                rw [firstOpenIdx_succ, hSInone, hTop]
                simp
              rw [hSInone, if_pos hD]
              have hih := ih (k + 1) hrest
                (noTrig_succ hnt (topClose_false_char hck (by rw [hcOp]; decide)))
              rw [hstep, hfoi] at hih
              exact hih
            · rw [if_neg hD]
              have hfoi : firstOpenIdx cs (k + 1) = firstOpenIdx cs k := by
                rw [firstOpenIdx_succ, topOpen_false_depth hD]
                simp
              have hih := ih (k + 1) hrest
                (noTrig_succ hnt (topClose_false_char hck (by rw [hcOp]; decide)))
              rw [hstep, hfoi] at hih
              exact hih
          · by_cases hCl : (!(scanPre cs k).instr && c = '}') = true
            · -- countable closing brace
              obtain ⟨hIf, hcCl⟩ : (scanPre cs k).instr = false ∧ c = '}' := by
                simp only [Bool.and_eq_true, Bool.not_eq_true', decide_eq_true_eq] at hCl
                exact hCl
              simp only [efjoAux]
              rw [if_neg hE, if_neg hB, if_neg hQ, if_neg hOp, if_pos hCl]
              have hstep : scanPre cs (k + 1) =
                  ⟨(scanPre cs k).instr, (scanPre cs k).esc, (scanPre cs k).depth - 1⟩ := by
                rw [scanPre_succ cs k c hck]
                unfold scanStep
                rw [if_neg hE, if_neg hB, if_neg hQ, if_neg hOp, if_pos hCl]
              have hEf : (scanPre cs k).esc = false := by simpa using hE
              by_cases hD1 : (scanPre cs k).depth - 1 = 0
              · have hTopC : topClose cs k = true := by
                  unfold topClose
                  rw [hcCl] at hck
                  rw [hstep]
                  simp [hck, hIf, hEf, hD1]
                rw [if_pos hD1]
                cases hSI : firstOpenIdx cs k with
                | some s =>
                  exact (fB_eq_of_trigger cs k s hk hSI hTopC hnt).symm
                | none =>
                  have hfoi : firstOpenIdx cs (k + 1) = none := by
                    rw [firstOpenIdx_succ, hSI,
                      topOpen_false_char hck (by rw [hcCl]; decide)]
                    simp
                  have hih := ih (k + 1) hrest (noTrig_succ_noOpen hnt hSI)
                  rw [hstep, hfoi] at hih
                  exact hih
              · rw [if_neg hD1]
                have hfoi : firstOpenIdx cs (k + 1) = firstOpenIdx cs k := by
                  rw [firstOpenIdx_succ, topOpen_false_char hck (by rw [hcCl]; decide)]
                  simp
                have hih := ih (k + 1) hrest
                  (noTrig_succ hnt (topClose_false_depth (by rw [hstep]; exact hD1)))
                rw [hstep, hfoi] at hih
                exact hih
            · -- inert character
              simp only [efjoAux]
              rw [if_neg hE, if_neg hB, if_neg hQ, if_neg hOp, if_neg hCl]
              have hstep : scanPre cs (k + 1) = scanPre cs k := by
                rw [scanPre_succ cs k c hck]
                unfold scanStep
                rw [if_neg hE, if_neg hB, if_neg hQ, if_neg hOp, if_neg hCl]
              have hTopF : topOpen cs k = false := by
                by_cases hc : c = '{'
                · have hIt : (scanPre cs k).instr = true := by
                    rw [hc] at hOp
                    simpa using hOp
                  exact topOpen_false_instr hIt
                · exact topOpen_false_char hck hc
              have hClF : topClose cs k = false := by
                by_cases hc : c = '}'
                · have hIt : (scanPre cs k).instr = true := by
                    rw [hc] at hCl
                    simpa using hCl
                  exact topClose_false_instr hIt
                · exact topClose_false_char hck hc
              have hfoi : firstOpenIdx cs (k + 1) = firstOpenIdx cs k := by
                rw [firstOpenIdx_succ, hTopF]
                simp
              have hih := ih (k + 1) hrest (noTrig_succ hnt hClF)
              rw [hstep, hfoi] at hih
              exact hih



theorem extract_first_json_object_eq (text : String) :
    extract_first_json_object text = firstBalancedObject text := by
  have h := efjoAux_eq text.data text.data 0 rfl
    (fun j hj => absurd hj (Nat.not_lt_zero j))
  have h' : efjoAux text.data 0 0 none false false = firstBalancedSpan text.data := h
  unfold extract_first_json_object firstBalancedObject
  rw [h']

theorem no_open_no_span (text : String) (h : ∀ c ∈ text.data, c ≠ '{') :
    extract_first_json_object text = none := by
  rw [extract_first_json_object_eq]
  unfold firstBalancedObject
  have : firstBalancedSpan text.data = none := by
    unfold firstBalancedSpan
    have hfo : (List.range text.data.length).find? (fun i => topOpen text.data i) = none := by
      rw [find?_range_eq_none]
      intro j hj
      have hj' : j < text.data.length := hj
      have hget : text.data[j]? = some text.data[j] := List.getElem?_eq_getElem hj'
      exact topOpen_false_char hget (h _ (List.getElem_mem hj'))
    rw [hfo]
  rw [this]

/-- C4: `extract_first_json_object` returns exactly the substring of the first
syntactically balanced top-level `{...}` object — braces inside double-quoted
strings (with backslash escaping) not counted — and `None` when no such object
exists; in particular a text with no `'{'` yields `None`, an unterminated
string prevents any close (concrete instance), and a brace inside a string
value is kept as literal content. -/
theorem c4_scanner_correct :
    (∀ text : String, extract_first_json_object text = firstBalancedObject text) ∧
    (∀ text : String, (∀ c ∈ text.data, c ≠ '{') → extract_first_json_object text = none) ∧
    extract_first_json_object "\x7b\"title\": \"a \x7b b\"\x7d" =
      some "\x7b\"title\": \"a \x7b b\"\x7d" ∧
    extract_first_json_object "\x7b\"a" = none := by
  exact ⟨extract_first_json_object_eq, no_open_no_span, by decide, by decide⟩

/-- C4 witness: the hypothesis-bearing conjunct applied at a concrete
input. -/
theorem c4_scanner_correct_witness : extract_first_json_object "no json here" = none :=
  c4_scanner_correct.2.1 "no json here" (by decide)

/-! ## Span-enumeration equivalence on quote-free texts (claim C5) -/

theorem efjoAux_le {cs : List Char} :
    ∀ {i : Nat} {bc : Int} {si : Option Nat} {f1 f2 : Bool} {s e : Nat},
      efjoAux cs i bc si f1 f2 = some (s, e) → i ≤ e := by
  induction cs with
  | nil => intro i bc si f1 f2 s e h; cases h
  | cons c cs ih =>
    intro i bc si f1 f2 s e h
    simp only [efjoAux] at h
    split_ifs at h
    all_goals try exact le_trans (by omega) (ih h)
    cases hsi : si with
    | some s' =>
      rw [hsi] at h
      injection h with h'
      injection h' with ha hb
      omega
    | none =>
      rw [hsi] at h
      exact le_trans (by omega) (ih h)

theorem efjoAux_shift {cs : List Char} :
    ∀ {i d : Nat} {bc : Int} {si : Option Nat} {f1 f2 : Bool},
      efjoAux cs (i + d) bc (si.map (· + d)) f1 f2 =
        (efjoAux cs i bc si f1 f2).map (fun p => (p.1 + d, p.2 + d)) := by
  induction cs with
  | nil => intro i d bc si f1 f2; rfl
  | cons c cs ih =>
    intro i d bc si f1 f2
    simp only [efjoAux]
    have hadd : i + d + 1 = (i + 1) + d := by omega
    split_ifs with h1 h2 h3 h4 h5 h6
    · rw [hadd]; exact ih
    · rw [hadd]; exact ih
    · rw [hadd]; exact ih
    · rw [hadd]; exact @ih (i + 1) d (bc + 1) (some i) f1 f2
    · rw [hadd]; exact @ih (i + 1) d (bc + 1) si f1 f2
    · cases si with
      | some s => rfl
      | none => rw [hadd]; exact @ih (i + 1) d (bc - 1) none f1 f2
    · rw [hadd]; exact ih
    · rw [hadd]; exact ih



theorem spans4Aux_bridge :
    ∀ {cs : List Char}, (∀ c ∈ cs, c ≠ '"') →
      ∀ (i : Nat) (bc : Int) (si : Option Nat),
        spans4Aux cs i bc si =
          (match efjoAux cs i bc si false false with
           | none => []
           | some (s, e) => (s, e) :: spans4Aux (cs.drop (e + 1 - i)) (e + 1) 0 none) := by
  intro cs
  induction cs with
  | nil => intro _ i bc si; rfl
  | cons c cs ih =>
    intro noq i bc si
    have hcq : c ≠ '"' := noq c (by simp)
    have noq' : ∀ c' ∈ cs, c' ≠ '"' := fun c' hc' => noq c' (by simp [hc'])
    simp only [spans4Aux, efjoAux]
    rw [if_neg (by simp : ¬(false = true)),
      if_neg (by simp : ¬((c = '\\' && false) = true)), if_neg hcq]
    by_cases hc : c = '{'
    · rw [if_pos hc, if_pos (by simp [hc] : (!false && c = '{') = true)]
      cases h : efjoAux cs (i + 1) (bc + 1) (if bc = 0 then some i else si) false false with
      | none => rw [ih noq' (i + 1) (bc + 1) (if bc = 0 then some i else si), h]
      | some pr =>
        obtain ⟨s, e⟩ := pr
        have he : i + 1 ≤ e := efjoAux_le h
        have hdrop : cs.drop (e + 1 - (i + 1)) = (c :: cs).drop (e + 1 - i) := by
          rw [show e + 1 - i = (e + 1 - (i + 1)) + 1 by omega]
          rfl
        rw [ih noq' (i + 1) (bc + 1) (if bc = 0 then some i else si), h]
        exact congrArg (fun l => ((s, e)) :: spans4Aux l (e + 1) 0 none) hdrop
    · rw [if_neg hc, if_neg (by simp [hc] : ¬((!false && c = '{') = true))]
      by_cases hc2 : c = '}'
      · rw [if_pos hc2, if_pos (by simp [hc2] : (!false && c = '}') = true)]
        by_cases hD : bc - 1 = 0
        · rw [if_pos hD, if_pos hD]
          cases si with
          | some s =>
            rw [hD]
            have hdrop : (c :: cs).drop (i + 1 - i) = cs := by
              rw [show i + 1 - i = 1 by omega]
              rfl
            exact congrArg (fun l => ((s, i)) :: spans4Aux l (i + 1) 0 none) hdrop.symm
          | none =>
            cases h : efjoAux cs (i + 1) (bc - 1) none false false with
            | none => rw [ih noq' (i + 1) (bc - 1) none, h]
            | some pr =>
              obtain ⟨s, e⟩ := pr
              have he : i + 1 ≤ e := efjoAux_le h
              have hdrop : cs.drop (e + 1 - (i + 1)) = (c :: cs).drop (e + 1 - i) := by
                rw [show e + 1 - i = (e + 1 - (i + 1)) + 1 by omega]
                rfl
              rw [ih noq' (i + 1) (bc - 1) none, h]
              exact congrArg (fun l => ((s, e)) :: spans4Aux l (e + 1) 0 none) hdrop
        · rw [if_neg hD, if_neg hD]
          cases h : efjoAux cs (i + 1) (bc - 1) si false false with
          | none => rw [ih noq' (i + 1) (bc - 1) si, h]
          | some pr =>
            obtain ⟨s, e⟩ := pr
            have he : i + 1 ≤ e := efjoAux_le h
            have hdrop : cs.drop (e + 1 - (i + 1)) = (c :: cs).drop (e + 1 - i) := by
              rw [show e + 1 - i = (e + 1 - (i + 1)) + 1 by omega]
              rfl
            rw [ih noq' (i + 1) (bc - 1) si, h]
            exact congrArg (fun l => ((s, e)) :: spans4Aux l (e + 1) 0 none) hdrop
      · rw [if_neg hc2, if_neg (by simp [hc2] : ¬((!false && c = '}') = true))]
        cases h : efjoAux cs (i + 1) bc si false false with
        | none => rw [ih noq' (i + 1) bc si, h]
        | some pr =>
          obtain ⟨s, e⟩ := pr
          have he : i + 1 ≤ e := efjoAux_le h
          have hdrop : cs.drop (e + 1 - (i + 1)) = (c :: cs).drop (e + 1 - i) := by
            rw [show e + 1 - i = (e + 1 - (i + 1)) + 1 by omega]
            rfl
          rw [ih noq' (i + 1) bc si, h]
          exact congrArg (fun l => ((s, e)) :: spans4Aux l (e + 1) 0 none) hdrop



theorem scannerSpansAux_eq :
    ∀ (n : Nat) (cs : List Char) (off : Nat), (∀ c ∈ cs, c ≠ '"') → cs.length < n →
      scannerSpansAux n cs off = spans4Aux cs off 0 none := by
  intro n
  induction n with
  | zero => intro cs off _ h; omega
  | succ n ih =>
    intro cs off noq hlen
    simp only [scannerSpansAux]
    have hB := spans4Aux_bridge noq off 0 none
    cases h : efjoAux cs 0 0 none false false with
    | none =>
      have hshift : efjoAux cs off 0 none false false = none := by
        have hs := @efjoAux_shift cs 0 off 0 none false false
        rw [h] at hs
        rw [Nat.zero_add] at hs
        exact hs
      rw [hB, hshift]
    | some pr =>
      obtain ⟨s, e⟩ := pr
      have hshift : efjoAux cs off 0 none false false = some (off + s, off + e) := by
        have hs := @efjoAux_shift cs 0 off 0 none false false
        rw [h] at hs
        rw [Nat.zero_add] at hs
        have hs' : efjoAux cs off 0 none false false = some (s + off, e + off) := hs
        rw [show s + off = off + s by omega, show e + off = off + e by omega] at hs'
        exact hs'
      rw [hB, hshift]
      have hne : cs ≠ [] := by
        intro hnil
        rw [hnil] at h
        cases h
      have hlen1 : 1 ≤ cs.length := by
        cases cs with
        | nil => exact absurd rfl hne
        | cons _ _ => simp
      have hdrop : cs.drop (off + e + 1 - off) = cs.drop (e + 1) := by
        rw [show off + e + 1 - off = e + 1 by omega]
      have hih := ih (cs.drop (e + 1)) (off + e + 1)
        (fun c' hc' => noq c' (List.mem_of_mem_drop hc'))
        (by rw [List.length_drop]; omega)
      exact congrArg (fun t => ((off + s, off + e)) :: t) (hih.trans
        (congrArg (fun l => spans4Aux l (off + e + 1) 0 none) hdrop.symm))

theorem spans4_eq_scannerSpans {cs : List Char} (noq : ∀ c ∈ cs, c ≠ '"') :
    spans4 cs = scannerSpans cs := by
  unfold spans4 scannerSpans
  rw [scannerSpansAux_eq (cs.length + 1) cs 0 noq (by omega)]

/-- C5 amended: the stage-4 enumeration tracks brace depth with *no* string
awareness, so its spans agree with the bracket-matching scanner's exactly on
texts free of double quotes; `c5_counterexample` shows they differ once a
string contains a brace. -/
theorem c5_amended (cs : List Char) (noq : ∀ c ∈ cs, c ≠ '"') :
    spans4 cs = scannerSpans cs :=
  spans4_eq_scannerSpans noq

/-- C5 witness: the amended equivalence applied to a concrete quote-free
text. -/
theorem c5_amended_witness : spans4 "ab\x7b\x7d \x7b1\x7d".data =
    scannerSpans "ab\x7b\x7d \x7b1\x7d".data :=
  c5_amended "ab\x7b\x7d \x7b1\x7d".data (by decide)

/-! ## Claim theorems -/

/-- C2: the spec requires "could not find valid JSON" to surface as a normal
`None` return, never an exception.  The code violates this: for input text
`"5"` with mode `"review"`, the whole-text parse yields the number `5`, and
`matches_mode` evaluates `'findings' in 5`, raising an uncaught `TypeError`
(only `json.JSONDecodeError` is caught). -/
theorem c2_code_bug : extract_json_from_text "5" (some "review") = Except.error () := by decide

/-- C1 counterexample: for text `"true"` (which parses as a bare boolean) and
mode `"analyze"`, the call raises a `TypeError` instead of returning the
first-matching-strategy result (which would be `none`): the claim as stated
is false at this input. -/
theorem c1_counterexample :
    ¬ (extract_json_from_text "true" (some "analyze") =
        Except.ok (chainSpec "true" "analyze")) := by
  decide

/-- C3 counterexample: both concatenated texts are valid JSON objects carrying
the review signature fields, yet extraction raises a `TypeError` instead of
returning the first object — the first object's string content contains a
```` ```json ```` fence whose content parses as the bare number `123`, and
stage 2 feeds it to `matches_mode`. -/
theorem c3_counterexample :
    jsonLoads c3text1 = some (.obj [("findings", .arr [.str "```json123```"]),
      ("overall_correctness", .str "c")]) ∧
    jsonLoads c3text2 = some (.obj [("findings", .arr []),
      ("overall_correctness", .str "d")]) ∧
    extract_json_from_text (c3text1 ++ c3text2) (some "review") = Except.error () := by
  exact ⟨by decide, by decide, by decide⟩

/-- C5 counterexample: on a text whose object holds `'}'` inside a string
value, the stage-4 span enumeration (no string tracking) produces different
spans than the bracket-matching scanner. -/
theorem c5_counterexample : spans4 c5text.data ≠ scannerSpans c5text.data := by decide

/-- C6 counterexample: a finding whose `code_location` is the *list*
`["absolute_file_path", "line_range"]` is accepted by the validator (Python
`in` is element membership on lists), while C6's conditions (key containment)
fail — the stated "if and only if" is false at this object. -/
theorem c6_counterexample :
    ¬ (validate_review_schema c6data = Except.ok true ↔
        reviewSchemaConditions c6data = true) := by
  decide

/-- C9 counterexample: the validator accepts an object whose finding has a
numeric `title`/`body`, a `confidence_score` of `99`, and a numeric
`line_range` — every typing clause of the claimed Finding contract fails. -/
theorem c9_counterexample :
    validate_review_schema c9data = Except.ok true ∧ allFindingsContract c9data = false := by
  decide


/-- C7: the fallback review is deterministic with the claimed field values,
its explanation embeds the reason string, and it is schema-valid. -/
theorem c7_fallback (msg : String) :
    create_fallback_review msg =
      .obj [("findings", .arr []),
            ("overall_correctness", .str "patch is correct"),
            ("overall_explanation",
              .str ("Review 解析失败: " ++ msg ++ "。请查看原始输出文件。")),
            ("overall_confidence_score", .num 0 1)] ∧
    (∃ pre post,
      ("Review 解析失败: " ++ msg ++ "。请查看原始输出文件。").data =
        pre ++ msg.data ++ post) ∧
    validate_review_schema (create_fallback_review msg) = .ok true := by
  refine ⟨rfl, ⟨"Review 解析失败: ".data, "。请查看原始输出文件。".data, ?_⟩, ?_⟩
  · rw [String.data_append, String.data_append]
  · rfl



theorem stage1_unknown {m : String} (hm : sigLookup m = none) (text : String) :
    stage1 text (some m) = .ok (jsonLoads text) := by
  unfold stage1
  cases h : jsonLoads text with
  | none => rfl
  | some p =>
    show (do
      let b ← matches_mode p m
      pure (if b then some p else none) : Except Unit (Option Json)) = .ok (some p)
    unfold matches_mode
    rw [hm]
    rfl

theorem stage2_unknown {m : String} (hm : sigLookup m = none) :
    ∀ blks : List String, stage2 blks (some m) = .ok (blks.findSome? jsonLoads) := by
  intro blks
  induction blks with
  | nil => rfl
  | cons b rest ih =>
    unfold stage2
    cases h : jsonLoads b with
    | none => rw [ih]; simp [List.findSome?_cons, h]
    | some p =>
      show (do
        let bb ← matches_mode p m
        if bb then pure (some p) else stage2 rest (some m) : Except Unit (Option Json)) = _
      unfold matches_mode
      rw [hm]
      simp [List.findSome?_cons, h]
      rfl

theorem stage3_unknown {m : String} (hm : sigLookup m = none) (text : String) :
    stage3 text (some m) = .ok none := by
  show (match sigLookup m with
    | none => (Except.ok none : Except Unit (Option Json))
    | some [] => Except.ok none
    | some (firstField :: _) => stage3Loop text m firstField 0 (text.length + 1)) =
      Except.ok none
  rw [hm]

theorem stage4_unknown {m : String} (hm : sigLookup m = none) (text : String) :
    ∀ (cs : List Char) (i : Nat) (bc : Int) (si : Option Nat),
      ∃ r, stage4Loop text (some m) cs i bc si = .ok r := by
  intro cs
  induction cs with
  | nil => intro i bc si; exact ⟨none, rfl⟩
  | cons c cs ih =>
    intro i bc si
    simp only [stage4Loop]
    split_ifs
    all_goals try apply ih
    cases si with
    | none => exact ih (i + 1) (bc - 1) none
    | some s =>
      show ∃ r,
        (match jsonLoads (String.mk ((text.data.drop s).take (i + 1 - s))) with
         | none => stage4Loop text (some m) cs (i + 1) (bc - 1) none
         | some parsed => do
             let b ← matches_mode parsed m
             if b then pure (some parsed)
             else stage4Loop text (some m) cs (i + 1) (bc - 1) none) = Except.ok r
      cases h : jsonLoads (String.mk ((text.data.drop s).take (i + 1 - s))) with
      | none =>
        exact ih (i + 1) (bc - 1) none
      | some parsed =>
        show ∃ r, (do
          let b ← matches_mode parsed m
          if b then pure (some parsed)
          else stage4Loop text (some m) cs (i + 1) (bc - 1) none :
            Except Unit (Option Json)) = .ok r
        unfold matches_mode
        rw [hm]
        exact ⟨some parsed, rfl⟩



/-- C10: for a mode tag outside the signature table (e.g. `"summary"`),
`matches_mode` accepts every candidate, the call never raises, a whole-text
object parse is returned unchanged whatever its fields, and the mode-anchored
field-search stage is skipped entirely. -/
theorem c10_unknown_modes (m : String) (hm : sigLookup m = none) :
    (∀ p : Json, matches_mode p m = .ok true) ∧
    (∀ text : String, ∃ r, extract_json_from_text text (some m) = .ok r) ∧
    (∀ (text : String) (kvs : List (String × Json)),
        jsonLoads text = some (.obj kvs) →
        extract_json_from_text text (some m) = .ok (some (.obj kvs))) ∧
    (∀ text : String, extract_json_from_text text (some m) = extractNoStage3 text (some m)) := by
  refine ⟨fun p => by unfold matches_mode; rw [hm], ?_, ?_, ?_⟩
  · intro text
    unfold extract_json_from_text
    rw [stage1_unknown hm]
    cases h : jsonLoads text with
    | some p => exact ⟨some p, rfl⟩
    | none =>
      rw [stage2_unknown hm]
      cases h2 : (fencedBlocks text).findSome? jsonLoads with
      | some p => exact ⟨some p, rfl⟩
      | none =>
        rw [stage3_unknown hm]
        obtain ⟨r, hr⟩ := stage4_unknown hm text text.data 0 0 none
        exact ⟨r, hr⟩
  · intro text kvs h
    unfold extract_json_from_text
    rw [stage1_unknown hm, h]
    rfl
  · intro text
    unfold extract_json_from_text extractNoStage3
    rw [stage1_unknown hm]
    cases h : jsonLoads text with
    | some p => rfl
    | none =>
      rw [stage2_unknown hm]
      cases h2 : (fencedBlocks text).findSome? jsonLoads with
      | some p => rfl
      | none =>
        rw [stage3_unknown hm]
        rfl

/-- C10 witness: the unknown tag `"summary"` at concrete inputs. -/
theorem c10_unknown_modes_witness :
    matches_mode (Json.num 1 0) "summary" = .ok true ∧
    extract_json_from_text "\x7b\"x\": 5\x7d" (some "summary") =
      .ok (some (.obj [("x", .num 5 0)])) := by
  have h := c10_unknown_modes "summary" (by decide)
  exact ⟨h.1 _, h.2.2.1 _ _ (by decide)⟩


def isContainer (p : Json) : Bool :=
  match p with
  | .obj _ => true
  | .arr _ => true
  | .str _ => true
  | _ => false

theorem pyInStr_eq_ok {p : Json} (h : isContainer p = true) (f : String) :
    pyInStr f p = .ok (pyInB f p) := by
  cases p <;> first | rfl | (simp [isContainer] at h)

theorem allFieldsIn_eq {p : Json} (h : isContainer p = true) :
    ∀ fields : List String, allFieldsIn fields p = .ok (fields.all (fun f => pyInB f p)) := by
  intro fields
  induction fields with
  | nil => rfl
  | cons f rest ih =>
    show (do
      let b ← pyInStr f p
      if b then allFieldsIn rest p else pure false : Except Unit Bool) = _
    rw [pyInStr_eq_ok h f]
    cases hb : pyInB f p with
    | true =>
      show allFieldsIn rest p = _
      rw [ih]
      simp [List.all_cons, hb]
    | false =>
      show (Except.ok false : Except Unit Bool) = _
      simp [List.all_cons, hb]

theorem allFieldsIn_scalar {p : Json}
    (h : isContainer p = false) (f : String) (rest : List String) :
    allFieldsIn (f :: rest) p = .error () := by
  cases p <;> first | rfl | (simp [isContainer] at h)

theorem pyGet_objGet (kvs : List (String × Json)) (k : String) :
    pyGet (.obj kvs) k =
      (match objGet? kvs k with
       | some v => .ok v
       | none => .error ()) := by
  cases h : kvs.find? (fun kv => kv.1 = k) with
  | none =>
    have h1 : pyGet (.obj kvs) k = .error () := by
      show (match kvs.find? (fun kv => kv.1 = k) with
            | some kv => (Except.ok kv.2 : Except Unit Json)
            | none => .error ()) = .error ()
      rw [h]
    have h2 : objGet? kvs k = none := by
      unfold objGet?
      rw [h]
      rfl
    rw [h1, h2]
  | some kv =>
    have h1 : pyGet (.obj kvs) k = .ok kv.2 := by
      show (match kvs.find? (fun kv => kv.1 = k) with
            | some kv => (Except.ok kv.2 : Except Unit Json)
            | none => .error ()) = .ok kv.2
      rw [h]
    have h2 : objGet? kvs k = some kv.2 := by
      unfold objGet?
      rw [h]
      rfl
    rw [h1, h2]

theorem pyGet_nonobj {p : Json} (h : ∀ kvs, p ≠ .obj kvs) (k : String) :
    pyGet p k = .error () := by
  cases p <;> first | rfl | exact absurd rfl (h _)

theorem objGet?_some_of_hasKey {kvs : List (String × Json)} {k : String}
    (h : hasKey kvs k = true) : ∃ v, objGet? kvs k = some v := by
  unfold hasKey at h
  rw [List.any_eq_true] at h
  obtain ⟨kv, hmem, hk⟩ := h
  have hS : (kvs.find? (fun kv => kv.1 = k)).isSome := by
    rw [List.find?_isSome]
    exact ⟨kv, hmem, hk⟩
  obtain ⟨kv', hkv'⟩ := Option.isSome_iff_exists.mp hS
  refine ⟨kv'.2, ?_⟩
  unfold objGet?
  rw [hkv']
  rfl



theorem except_bind_ok {ε α β : Type} (a : α) (f : α → Except ε β) :
    (Except.ok a : Except ε α) >>= f = f a := rfl

theorem except_bind_error {ε α β : Type} (e : ε) (f : α → Except ε β) :
    (Except.error e : Except ε α) >>= f = .error e := rfl

theorem validate_unfold (d : Json) :
    validate_review_schema d =
      (allFieldsIn ["findings", "overall_correctness", "overall_explanation",
        "overall_confidence_score"] d >>= fun b =>
        if !b then pure false
        else
          pyGet d "findings" >>= fun f =>
            match f with
            | .arr findings =>
              validateFindings findings >>= fun bf =>
                if !bf then pure false
                else
                  pyGet d "overall_correctness" >>= fun oc =>
                    pure (oc = Json.str "patch is correct" ||
                      oc = Json.str "patch is incorrect")
            | _ => pure false) := rfl

theorem validate_nonobj {d : Json} (h : ∀ kvs, d ≠ .obj kvs) :
    validate_review_schema d ≠ .ok true := by
  rw [validate_unfold]
  cases hC : isContainer d with
  | false =>
    rw [allFieldsIn_scalar hC, except_bind_error]
    intro hcon
    cases hcon
  | true =>
    rw [allFieldsIn_eq hC, except_bind_ok]
    cases hb : (["findings", "overall_correctness", "overall_explanation",
        "overall_confidence_score"].all (fun f => pyInB f d)) with
    | false =>
      intro hcon
      cases hcon
    | true =>
      rw [Bool.not_true, if_neg (by simp), pyGet_nonobj h, except_bind_error]
      intro hcon
      cases hcon



theorem validateFindings_unfold (f : Json) (rest : List Json) :
    validateFindings (f :: rest) =
      (allFieldsIn ["title", "body", "confidence_score", "code_location"] f >>= fun b =>
        if !b then pure false
        else
          pyGet f "code_location" >>= fun cl =>
            pyInStr "absolute_file_path" cl >>= fun b1 =>
              if !b1 then pure false
              else
                pyInStr "line_range" cl >>= fun b2 =>
                  if !b2 then pure false else validateFindings rest) := rfl

theorem findingKeysOk_nonobj {f : Json} (h : ∀ kvs, f ≠ .obj kvs) :
    findingKeysOk f = false := by
  cases f <;> first | rfl | exact absurd rfl (h _)

theorem validateFindings_iff :
    ∀ (fs : List Json), (∀ f ∈ fs, clObjOkF f = true) →
      (validateFindings fs = .ok true ↔ fs.all findingKeysOk = true) := by
  intro fs
  induction fs with
  | nil => intro _; simp [validateFindings]
  | cons f rest ih =>
    intro hcl
    have hclf := hcl f (by simp)
    have hclr : ∀ g ∈ rest, clObjOkF g = true := fun g hg => hcl g (by simp [hg])
    rw [validateFindings_unfold, List.all_cons]
    cases hCf : isContainer f with
    | false =>
      rw [allFieldsIn_scalar hCf, except_bind_error]
      have hfk : findingKeysOk f = false := by
        cases f <;> first | rfl | (simp [isContainer] at hCf)
      rw [hfk]
      simp
    | true =>
      rw [allFieldsIn_eq hCf, except_bind_ok]
      cases hb : (["title", "body", "confidence_score", "code_location"].all
          (fun x => pyInB x f)) with
      | false =>
        show (Except.ok false = Except.ok true) ↔ _
        have hfk : findingKeysOk f = false := by
          cases f with
          | obj fkvs =>
            have hb2 : (["title", "body", "confidence_score", "code_location"].all
                (fun x => hasKey fkvs x)) = false := hb
            show ((["title", "body", "confidence_score", "code_location"].all
                (fun x => hasKey fkvs x)) &&
              (match objGet? fkvs "code_location" with
               | some (.obj ckvs) =>
                 hasKey ckvs "absolute_file_path" && hasKey ckvs "line_range"
               | _ => false)) = false
            rw [hb2]
            rfl
          | _ => rfl
        rw [hfk]
        simp
      | true =>
        show (pyGet f "code_location" >>= fun cl =>
            pyInStr "absolute_file_path" cl >>= fun b1 =>
              if !b1 then pure false
              else
                pyInStr "line_range" cl >>= fun b2 =>
                  if !b2 then pure false else validateFindings rest) = Except.ok true ↔ _
        cases f with
        | str s =>
          rw [pyGet_nonobj (by intro kvs h; cases h), except_bind_error]
          rw [findingKeysOk_nonobj (by intro kvs h; cases h)]
          simp
        | arr xs =>
          rw [pyGet_nonobj (by intro kvs h; cases h), except_bind_error]
          rw [findingKeysOk_nonobj (by intro kvs h; cases h)]
          simp
        | obj fkvs =>
          have hb' := hb
          simp only [List.all_cons, List.all_nil, Bool.and_eq_true, Bool.and_true] at hb'
          have h4 : hasKey fkvs "code_location" = true := hb'.2.2.2
          obtain ⟨cl, hclv⟩ := objGet?_some_of_hasKey h4
          rw [pyGet_objGet, hclv, except_bind_ok]
          have hclo : ∃ ckvs, cl = .obj ckvs := by
            have hclf2 : (match objGet? fkvs "code_location" with
              | some (.obj _) => true
              | some _ => false
              | none => true) = true := hclf
            rw [hclv] at hclf2
            cases cl with
            | obj ckvs => exact ⟨ckvs, rfl⟩
            | _ => cases hclf2
          obtain ⟨ckvs, rfl⟩ := hclo
          rw [show pyInStr "absolute_file_path" (.obj ckvs) =
            .ok (hasKey ckvs "absolute_file_path") from rfl, except_bind_ok]
          have hfk : findingKeysOk (.obj fkvs) =
              (hasKey ckvs "absolute_file_path" && hasKey ckvs "line_range") := by
            show ((["title", "body", "confidence_score", "code_location"].all
                (fun x => hasKey fkvs x)) &&
              (match objGet? fkvs "code_location" with
               | some (.obj ckvs) =>
                 hasKey ckvs "absolute_file_path" && hasKey ckvs "line_range"
               | _ => false)) = _
            rw [hclv]
            have hb2 : (["title", "body", "confidence_score", "code_location"].all
                (fun x => hasKey fkvs x)) = true := hb
            rw [hb2]
            rfl
          rw [hfk]
          cases h1 : hasKey ckvs "absolute_file_path" with
          | false =>
            show (Except.ok false = Except.ok true) ↔ _
            simp
          | true =>
            show (pyInStr "line_range" (.obj ckvs) >>= fun b2 =>
              if !b2 then pure false else validateFindings rest) = Except.ok true ↔ _
            rw [show pyInStr "line_range" (.obj ckvs) =
              .ok (hasKey ckvs "line_range") from rfl, except_bind_ok]
            cases h2 : hasKey ckvs "line_range" with
            | false =>
              show (Except.ok false = Except.ok true) ↔ _
              simp
            | true =>
              show validateFindings rest = Except.ok true ↔ _
              rw [ih hclr]
              simp
        | num m s => simp [isContainer] at hCf
        | bool b => simp [isContainer] at hCf
        | null => simp [isContainer] at hCf



/-- C6 amended: the claimed equivalence holds for every `d` whose findings'
`code_location` values are objects (the intended shape); in general the
validator tests containment with Python `in`, which a list or string
`code_location` can satisfy (see `c6_counterexample`). -/
theorem c6_validator_iff (d : Json) (h : clObjsOk d = true) :
    validate_review_schema d = .ok true ↔ reviewSchemaConditions d = true := by
  cases d with
  | null =>
    constructor
    · intro hcon; exact absurd hcon (validate_nonobj (by intro kvs hk; cases hk))
    · intro hcon; cases hcon
  | bool b =>
    constructor
    · intro hcon; exact absurd hcon (validate_nonobj (by intro kvs hk; cases hk))
    · intro hcon; cases hcon
  | num m s =>
    constructor
    · intro hcon; exact absurd hcon (validate_nonobj (by intro kvs hk; cases hk))
    · intro hcon; cases hcon
  | str s =>
    constructor
    · intro hcon; exact absurd hcon (validate_nonobj (by intro kvs hk; cases hk))
    · intro hcon; cases hcon
  | arr xs =>
    constructor
    · intro hcon; exact absurd hcon (validate_nonobj (by intro kvs hk; cases hk))
    · intro hcon; cases hcon
  | obj kvs =>
    rw [validate_unfold, allFieldsIn_eq (show isContainer (Json.obj kvs) = true from rfl),
      except_bind_ok]
    cases hb : (["findings", "overall_correctness", "overall_explanation",
        "overall_confidence_score"].all (fun x => pyInB x (Json.obj kvs))) with
    | false =>
      show (Except.ok false = Except.ok true) ↔ _
      have hb2 : (["findings", "overall_correctness", "overall_explanation",
          "overall_confidence_score"].all (fun x => hasKey kvs x)) = false := hb
      have hrhs : reviewSchemaConditions (.obj kvs) = false := by
        show ((["findings", "overall_correctness", "overall_explanation",
            "overall_confidence_score"].all (fun x => hasKey kvs x)) &&
          (match objGet? kvs "findings" with
           | some (.arr fs) => fs.all findingKeysOk
           | _ => false) &&
          (objGet? kvs "overall_correctness" = some (.str "patch is correct") ||
           objGet? kvs "overall_correctness" = some (.str "patch is incorrect"))) = false
        rw [hb2]
        rfl
      rw [hrhs]
      simp
    | true =>
      have hb2 : (["findings", "overall_correctness", "overall_explanation",
          "overall_confidence_score"].all (fun x => hasKey kvs x)) = true := hb
      have hb3 := hb2
      simp only [List.all_cons, List.all_nil, Bool.and_eq_true, Bool.and_true] at hb3
      obtain ⟨v, hv⟩ := objGet?_some_of_hasKey hb3.1
      show (pyGet (.obj kvs) "findings" >>= fun f =>
        match f with
        | .arr findings =>
          validateFindings findings >>= fun bf =>
            if !bf then pure false
            else
              pyGet (.obj kvs) "overall_correctness" >>= fun oc =>
                pure (oc = Json.str "patch is correct" ||
                  oc = Json.str "patch is incorrect")
        | _ => pure false) = Except.ok true ↔ _
      rw [pyGet_objGet, hv, except_bind_ok]
      cases v with
      | arr fs =>
        have h2 : (match objGet? kvs "findings" with
            | some (.arr fs) => fs.all clObjOkF
            | _ => true) = true := h
        rw [hv] at h2
        have h3 : fs.all clObjOkF = true := h2
        have hclmem : ∀ f ∈ fs, clObjOkF f = true := by
          rw [List.all_eq_true] at h3
          intro f hf
          exact h3 f hf
        have hIff := validateFindings_iff fs hclmem
        have hmid : (match objGet? kvs "findings" with
            | some (.arr fs') => fs'.all findingKeysOk
            | _ => false) = fs.all findingKeysOk := by
          rw [hv]
        show (validateFindings fs >>= fun bf =>
          if !bf then pure false
          else
            pyGet (.obj kvs) "overall_correctness" >>= fun oc =>
              pure ((oc = Json.str "patch is correct" : Bool) ||
                (oc = Json.str "patch is incorrect" : Bool))) = Except.ok true ↔ _
        cases hVF : validateFindings fs with
        | error e =>
          rw [hVF] at hIff
          have hall : fs.all findingKeysOk = false := by
            cases hall2 : fs.all findingKeysOk with
            | true => exact absurd (hIff.mpr hall2) (by intro hc; cases hc)
            | false => rfl
          rw [except_bind_error]
          have hrhs : reviewSchemaConditions (.obj kvs) = false := by
            show ((["findings", "overall_correctness", "overall_explanation",
                "overall_confidence_score"].all (fun x => hasKey kvs x)) &&
              (match objGet? kvs "findings" with
               | some (.arr fs') => fs'.all findingKeysOk
               | _ => false) &&
              (objGet? kvs "overall_correctness" = some (.str "patch is correct") ||
               objGet? kvs "overall_correctness" = some (.str "patch is incorrect"))) = false
            rw [hb2, hmid, hall]
            rfl
          rw [hrhs]
          constructor
          · intro hc; cases hc
          · intro hc; cases hc
        | ok bf =>
          rw [hVF] at hIff
          rw [except_bind_ok]
          cases bf with
          | false =>
            have hall : fs.all findingKeysOk = false := by
              cases hall2 : fs.all findingKeysOk with
              | true => exact absurd (hIff.mpr hall2) (by intro hc; cases hc)
              | false => rfl
            show (Except.ok false = Except.ok true) ↔ _
            have hrhs : reviewSchemaConditions (.obj kvs) = false := by
              show ((["findings", "overall_correctness", "overall_explanation",
                  "overall_confidence_score"].all (fun x => hasKey kvs x)) &&
                (match objGet? kvs "findings" with
                 | some (.arr fs') => fs'.all findingKeysOk
                 | _ => false) &&
                (objGet? kvs "overall_correctness" = some (.str "patch is correct") ||
                 objGet? kvs "overall_correctness" = some (.str "patch is incorrect"))) = false
              rw [hb2, hmid, hall]
              rfl
            rw [hrhs]
            simp
          | true =>
            have hall : fs.all findingKeysOk = true := hIff.mp rfl
            obtain ⟨oc, hoc⟩ := objGet?_some_of_hasKey hb3.2.1
            show (pyGet (.obj kvs) "overall_correctness" >>= fun oc =>
              pure (oc = Json.str "patch is correct" ||
                oc = Json.str "patch is incorrect")) = Except.ok true ↔ _
            rw [pyGet_objGet, hoc, except_bind_ok]
            have hrhs : reviewSchemaConditions (.obj kvs) =
                ((oc = Json.str "patch is correct" : Bool) ||
                 (oc = Json.str "patch is incorrect" : Bool)) := by
              show ((["findings", "overall_correctness", "overall_explanation",
                  "overall_confidence_score"].all (fun x => hasKey kvs x)) &&
                (match objGet? kvs "findings" with
                 | some (.arr fs') => fs'.all findingKeysOk
                 | _ => false) &&
                (objGet? kvs "overall_correctness" = some (.str "patch is correct") ||
                 objGet? kvs "overall_correctness" = some (.str "patch is incorrect"))) = _
              rw [hb2, hmid, hall, hoc]
              simp
            rw [hrhs]
            show (Except.ok ((oc = Json.str "patch is correct" : Bool) ||
              (oc = Json.str "patch is incorrect" : Bool)) = Except.ok true) ↔ _
            constructor
            · intro hc
              exact Except.ok.inj hc
            · intro hc
              rw [hc]
      | obj o =>
        show (Except.ok false = Except.ok true) ↔ _
        have hrhs : reviewSchemaConditions (.obj kvs) = false := by
          show ((["findings", "overall_correctness", "overall_explanation",
              "overall_confidence_score"].all (fun x => hasKey kvs x)) &&
            (match objGet? kvs "findings" with
             | some (.arr fs') => fs'.all findingKeysOk
             | _ => false) &&
            (objGet? kvs "overall_correctness" = some (.str "patch is correct") ||
             objGet? kvs "overall_correctness" = some (.str "patch is incorrect"))) = false
          rw [hb2, show (match objGet? kvs "findings" with
            | some (.arr fs') => fs'.all findingKeysOk
            | _ => false) = false from by rw [hv]]
          rfl
        rw [hrhs]
        simp
      | null =>
        show (Except.ok false = Except.ok true) ↔ _
        have hrhs : reviewSchemaConditions (.obj kvs) = false := by
          show ((["findings", "overall_correctness", "overall_explanation",
              "overall_confidence_score"].all (fun x => hasKey kvs x)) &&
            (match objGet? kvs "findings" with
             | some (.arr fs') => fs'.all findingKeysOk
             | _ => false) &&
            (objGet? kvs "overall_correctness" = some (.str "patch is correct") ||
             objGet? kvs "overall_correctness" = some (.str "patch is incorrect"))) = false
          rw [hb2, show (match objGet? kvs "findings" with
            | some (.arr fs') => fs'.all findingKeysOk
            | _ => false) = false from by rw [hv]]
          rfl
        rw [hrhs]
        simp
      | bool b =>
        show (Except.ok false = Except.ok true) ↔ _
        have hrhs : reviewSchemaConditions (.obj kvs) = false := by
          show ((["findings", "overall_correctness", "overall_explanation",
              "overall_confidence_score"].all (fun x => hasKey kvs x)) &&
            (match objGet? kvs "findings" with
             | some (.arr fs') => fs'.all findingKeysOk
             | _ => false) &&
            (objGet? kvs "overall_correctness" = some (.str "patch is correct") ||
             objGet? kvs "overall_correctness" = some (.str "patch is incorrect"))) = false
          rw [hb2, show (match objGet? kvs "findings" with
            | some (.arr fs') => fs'.all findingKeysOk
            | _ => false) = false from by rw [hv]]
          rfl
        rw [hrhs]
        simp
      | num m s =>
        show (Except.ok false = Except.ok true) ↔ _
        have hrhs : reviewSchemaConditions (.obj kvs) = false := by
          show ((["findings", "overall_correctness", "overall_explanation",
              "overall_confidence_score"].all (fun x => hasKey kvs x)) &&
            (match objGet? kvs "findings" with
             | some (.arr fs') => fs'.all findingKeysOk
             | _ => false) &&
            (objGet? kvs "overall_correctness" = some (.str "patch is correct") ||
             objGet? kvs "overall_correctness" = some (.str "patch is incorrect"))) = false
          rw [hb2, show (match objGet? kvs "findings" with
            | some (.arr fs') => fs'.all findingKeysOk
            | _ => false) = false from by rw [hv]]
          rfl
        rw [hrhs]
        simp
      | str s2 =>
        show (Except.ok false = Except.ok true) ↔ _
        have hrhs : reviewSchemaConditions (.obj kvs) = false := by
          show ((["findings", "overall_correctness", "overall_explanation",
              "overall_confidence_score"].all (fun x => hasKey kvs x)) &&
            (match objGet? kvs "findings" with
             | some (.arr fs') => fs'.all findingKeysOk
             | _ => false) &&
            (objGet? kvs "overall_correctness" = some (.str "patch is correct") ||
             objGet? kvs "overall_correctness" = some (.str "patch is incorrect"))) = false
          rw [hb2, show (match objGet? kvs "findings" with
            | some (.arr fs') => fs'.all findingKeysOk
            | _ => false) = false from by rw [hv]]
          rfl
        rw [hrhs]
        simp



theorem allFieldsIn_ok_true :
    ∀ (fields : List String) (p : Json), allFieldsIn fields p = .ok true →
      ∀ f ∈ fields, pyInStr f p = .ok true := by
  intro fields
  induction fields with
  | nil => intro p _ f hf; cases hf
  | cons g rest ih =>
    intro p h f hf
    rw [show allFieldsIn (g :: rest) p = (pyInStr g p >>= fun b =>
      if b then allFieldsIn rest p else pure false) from rfl] at h
    cases hg : pyInStr g p with
    | error e => rw [hg, except_bind_error] at h; cases h
    | ok b =>
      rw [hg, except_bind_ok] at h
      cases b with
      | false =>
        rw [if_neg (by simp)] at h
        cases h
      | true =>
        rw [if_pos rfl] at h
        rcases List.mem_cons.mp hf with rfl | hmem
        · exact hg
        · exact ih p h f hmem

theorem validateFindings_presence :
    ∀ fs : List Json, validateFindings fs = .ok true → ∀ f ∈ fs, findingPresence f := by
  intro fs
  induction fs with
  | nil => intro _ f hf; cases hf
  | cons g rest ih =>
    intro h f hf
    rw [validateFindings_unfold] at h
    cases hA : allFieldsIn ["title", "body", "confidence_score", "code_location"] g with
    | error e => rw [hA, except_bind_error] at h; cases h
    | ok b =>
      rw [hA, except_bind_ok] at h
      cases b with
      | false => rw [if_pos (by simp)] at h; cases h
      | true =>
        rw [if_neg (by simp)] at h
        cases hcl : pyGet g "code_location" with
        | error e => rw [hcl, except_bind_error] at h; cases h
        | ok cl =>
          rw [hcl, except_bind_ok] at h
          cases h1 : pyInStr "absolute_file_path" cl with
          | error e => rw [h1, except_bind_error] at h; cases h
          | ok b1 =>
            rw [h1, except_bind_ok] at h
            cases b1 with
            | false => rw [if_pos (by simp)] at h; cases h
            | true =>
              rw [if_neg (by simp)] at h
              cases h2 : pyInStr "line_range" cl with
              | error e => rw [h2, except_bind_error] at h; cases h
              | ok b2 =>
                rw [h2, except_bind_ok] at h
                cases b2 with
                | false => rw [if_pos (by simp)] at h; cases h
                | true =>
                  rw [if_neg (by simp)] at h
                  rcases List.mem_cons.mp hf with rfl | hmem
                  · have hfields := allFieldsIn_ok_true _ _ hA
                    exact ⟨hfields "title" (by simp), hfields "body" (by simp),
                      hfields "confidence_score" (by simp),
                      hfields "code_location" (by simp),
                      cl, hcl, h1, h2⟩
                  · exact ih h f hmem



/-- C9 amended: acceptance by the validator guarantees only *presence* — the
object form, a findings list, the four membership tests on each finding and
the two membership tests on its `code_location` value; no typing, range or
shape constraint of the claimed Finding contract is checked (see
`c9_counterexample`). -/
theorem c9_presence_only (d : Json) (h : validate_review_schema d = .ok true) :
    ∃ kvs fs, d = .obj kvs ∧ objGet? kvs "findings" = some (.arr fs) ∧
      ∀ f ∈ fs, findingPresence f := by
  cases d with
  | obj kvs =>
    rw [validate_unfold] at h
    cases hA : allFieldsIn ["findings", "overall_correctness", "overall_explanation",
        "overall_confidence_score"] (Json.obj kvs) with
    | error e => rw [hA, except_bind_error] at h; cases h
    | ok b =>
      rw [hA, except_bind_ok] at h
      cases b with
      | false => rw [if_pos (by simp)] at h; cases h
      | true =>
        rw [if_neg (by simp)] at h
        cases hov : objGet? kvs "findings" with
        | none =>
          rw [pyGet_objGet, hov, except_bind_error] at h
          cases h
        | some v =>
          rw [pyGet_objGet, hov, except_bind_ok] at h
          cases v with
          | arr fs =>
            have h' : (validateFindings fs >>= fun bf =>
              if !bf then pure false
              else
                pyGet (Json.obj kvs) "overall_correctness" >>= fun oc =>
                  pure ((oc = Json.str "patch is correct" : Bool) ||
                    (oc = Json.str "patch is incorrect" : Bool))) = Except.ok true := h
            cases hVF : validateFindings fs with
            | error e => rw [hVF, except_bind_error] at h'; cases h'
            | ok bf =>
              rw [hVF, except_bind_ok] at h'
              cases bf with
              | false => rw [if_pos (by simp)] at h'; cases h'
              | true => exact ⟨kvs, fs, rfl, hov, validateFindings_presence fs hVF⟩
          | obj o => cases h
          | null => cases h
          | bool b2 => cases h
          | num m s => cases h
          | str s2 => cases h
  | null => exact absurd h (validate_nonobj (by intro kvs hk; cases hk))
  | bool b => exact absurd h (validate_nonobj (by intro kvs hk; cases hk))
  | num m s => exact absurd h (validate_nonobj (by intro kvs hk; cases hk))
  | str s => exact absurd h (validate_nonobj (by intro kvs hk; cases hk))
  | arr xs => exact absurd h (validate_nonobj (by intro kvs hk; cases hk))




/-- C6 witness: the equivalence applied to a concrete well-shaped object. -/
theorem c6_validator_iff_witness :
    validate_review_schema c9data = Except.ok true ↔
      reviewSchemaConditions c9data = true :=
  c6_validator_iff c9data (by decide)



/-- C9 witness: the presence guarantees at a concrete accepted object. -/
theorem c9_presence_only_witness :
    ∃ kvs fs, c9data = Json.obj kvs ∧ objGet? kvs "findings" = some (.arr fs) ∧
      ∀ f ∈ fs, findingPresence f :=
  c9_presence_only c9data (by decide)

theorem digitVal_dch {d : Nat} (h : d < 10) : digitVal (Char.ofNat (48 + d)) = d := by
  interval_cases d <;> decide

theorem isDigit_dch {d : Nat} (h : d < 10) : isDigit (Char.ofNat (48 + d)) = true := by
  interval_cases d <;> decide

theorem dch_ne_zero {d : Nat} (h1 : d ≠ 0) (h2 : d < 10) : Char.ofNat (48 + d) ≠ '0' := by
  have : 1 ≤ d := Nat.one_le_iff_ne_zero.mpr h1
  interval_cases d <;> decide

theorem digitsVal_acc (b : List Char) :
    ∀ acc : Nat, List.foldl (fun a c => a * 10 + digitVal c) acc b =
      acc * 10 ^ b.length + digitsVal b := by
  induction b with
  | nil => intro acc; simp [digitsVal]
  | cons c b ih =>
    intro acc
    simp only [List.foldl_cons, List.length_cons, digitsVal] at *
    rw [ih (acc * 10 + digitVal c), ih (0 * 10 + digitVal c)]
    ring

theorem digitsVal_append (a b : List Char) :
    digitsVal (a ++ b) = digitsVal a * 10 ^ b.length + digitsVal b := by
  unfold digitsVal
  rw [List.foldl_append]
  exact digitsVal_acc b _

theorem digitsVal_zeros (z : Nat) (l : List Char) :
    digitsVal (List.replicate z '0' ++ l) = digitsVal l := by
  rw [digitsVal_append]
  have hz : digitsVal (List.replicate z '0') = 0 := by
    induction z with
    | zero => rfl
    | succ n ih =>
      rw [List.replicate_succ]
      unfold digitsVal at *
      simp only [List.foldl_cons]
      have : (0 * 10 + digitVal '0') = 0 := by decide
      rw [this]
      exact ih
  rw [hz]
  ring

theorem digitsVal_rev_map (L : List Nat) (hL : ∀ d ∈ L, d < 10) :
    digitsVal (L.reverse.map (fun d => Char.ofNat (48 + d))) = Nat.ofDigits 10 L := by
  induction L with
  | nil => rfl
  | cons d L' ih =>
    have hd : d < 10 := hL d (by simp)
    have hL' : ∀ e ∈ L', e < 10 := fun e he => hL e (by simp [he])
    rw [List.reverse_cons, List.map_append, List.map_cons, List.map_nil,
      digitsVal_append, ih hL', Nat.ofDigits_cons]
    have h1 : digitsVal [Char.ofNat (48 + d)] = d := by
      unfold digitsVal
      simp only [List.foldl_cons, List.foldl_nil]
      rw [Nat.zero_mul, Nat.zero_add, digitVal_dch hd]
    rw [h1]
    simp
    ring

theorem natDigitsRev_eq {fuel n : Nat} (h : n ≤ fuel) :
    natDigitsRev fuel n = Nat.digits 10 n := by
  induction fuel generalizing n with
  | zero =>
    have : n = 0 := by omega
    subst this
    rw [Nat.digits_zero]
    rfl
  | succ fuel ih =>
    by_cases hn : n = 0
    · subst hn
      rw [Nat.digits_zero]
      rfl
    · unfold natDigitsRev
      rw [if_neg hn]
      have hdl : n / 10 < n := Nat.div_lt_self (Nat.pos_of_ne_zero hn) (by norm_num)
      rw [ih (by omega)]
      rw [← Nat.digits_def' (by norm_num : (1:Nat) < 10) (Nat.pos_of_ne_zero hn)]

theorem natRepr_eq_digits (n : Nat) :
    natRepr n = if n = 0 then ['0']
      else (Nat.digits 10 n).reverse.map (fun d => Char.ofNat (48 + d)) := by
  unfold natRepr
  rw [natDigitsRev_eq (le_refl n)]

theorem digitsVal_natRepr (n : Nat) : digitsVal (natRepr n) = n := by
  rw [natRepr_eq_digits]
  by_cases h : n = 0
  · rw [if_pos h, h]; decide
  · rw [if_neg h,
      digitsVal_rev_map _ (fun d hd => Nat.digits_lt_base (by norm_num) hd),
      Nat.ofDigits_digits]

theorem natRepr_digits (n : Nat) : ∀ c ∈ natRepr n, isDigit c = true := by
  rw [natRepr_eq_digits]
  by_cases h : n = 0
  · rw [if_pos h]
    intro c hc
    simp only [List.mem_singleton] at hc
    rw [hc]; decide
  · rw [if_neg h]
    intro c hc
    rw [List.mem_map] at hc
    obtain ⟨d, hd, rfl⟩ := hc
    rw [List.mem_reverse] at hd
    exact isDigit_dch (Nat.digits_lt_base (by norm_num) hd)

theorem natRepr_ne_nil (n : Nat) : natRepr n ≠ [] := by
  rw [natRepr_eq_digits]
  by_cases h : n = 0
  · rw [if_pos h]; simp
  · rw [if_neg h]
    simp [Nat.digits_ne_nil_iff_ne_zero.mpr h]

theorem natRepr_head_ne_zero {n : Nat} (hn : n ≠ 0) {c : Char} {cs : List Char}
    (h : natRepr n = c :: cs) : c ≠ '0' := by
  have hh : (natRepr n).head? = some c := by rw [h]; rfl
  rw [natRepr_eq_digits] at hh
  rw [if_neg hn, List.head?_map, List.head?_reverse] at hh
  have hne := (@Nat.digits_ne_nil_iff_ne_zero 10 n).mpr hn
  rw [List.getLast?_eq_getLast _ hne] at hh
  simp only [Option.map_some'] at hh
  have hlt : (Nat.digits 10 n).getLast hne < 10 :=
    Nat.digits_lt_base (by norm_num) (List.getLast_mem hne)
  have hnz : (Nat.digits 10 n).getLast hne ≠ 0 := Nat.getLast_digit_ne_zero 10 hn
  rw [← Option.some_inj.mp hh]
  exact dch_ne_zero hnz hlt



theorem takeWhile_digits_append {l rest : List Char} (hl : ∀ c ∈ l, isDigit c = true)
    (hrest : numStop rest) : (l ++ rest).takeWhile isDigit = l ∧
      (l ++ rest).dropWhile isDigit = rest := by
  induction l with
  | nil =>
    simp only [List.nil_append]
    cases rest with
    | nil => exact ⟨rfl, rfl⟩
    | cons c t =>
      obtain ⟨h1, _⟩ := hrest
      rw [List.takeWhile_cons, List.dropWhile_cons, h1]
      exact ⟨rfl, rfl⟩
  | cons c l ih =>
    have hc : isDigit c = true := hl c (by simp)
    have hl' : ∀ c ∈ l, isDigit c = true := fun c hcm => hl c (by simp [hcm])
    obtain ⟨iht, ihd⟩ := ih hl'
    rw [List.cons_append, List.takeWhile_cons, List.dropWhile_cons, hc]
    exact ⟨by rw [if_pos rfl, iht], by rw [if_pos rfl, ihd]⟩

theorem skipWs_append {l rest : List Char} (hl : ∀ c ∈ l, isWs c = true) :
    skipWs (l ++ rest) = skipWs rest := by
  induction l with
  | nil => rfl
  | cons c l ih =>
    have hc : isWs c = true := hl c (by simp)
    have hl' : ∀ c ∈ l, isWs c = true := fun c hcm => hl c (by simp [hcm])
    unfold skipWs at *
    rw [List.cons_append, List.dropWhile_cons, hc]
    exact ih hl'

theorem skipWs_cons {c : Char} (rest : List Char) (hc : isWs c = false) :
    skipWs (c :: rest) = c :: rest := by
  unfold skipWs
  rw [List.dropWhile_cons, hc]
  simp

theorem nlIndent_ws (w k : Nat) : ∀ c ∈ nlIndent w k, isWs c = true := by
  intro c hc
  unfold nlIndent at hc
  rcases List.mem_cons.mp hc with h | h
  · rw [h]; decide
  · rw [List.eq_of_mem_replicate h]; decide

theorem hexVal?_hexDigitChar {n : Nat} (h : n < 16) :
    hexVal? (hexDigitChar n) = some n := by
  interval_cases n <;> decide

theorem char_ofNat_toNat {c : Char} (h : c.toNat < 0xD800) : Char.ofNat c.toNat = c := by
  apply Char.ext
  have hv : c.toNat.isValidChar := Or.inl h
  rw [Char.ofNat, dif_pos hv]
  unfold Char.ofNatAux
  exact rfl



theorem escapeChar_ne_nil (c : Char) : escapeChar c ≠ [] := by
  unfold escapeChar
  split_ifs <;> simp

theorem escList_length_ge (cs : List Char) : cs.length ≤ (escList cs).length := by
  induction cs with
  | nil => simp [escList]
  | cons c cs ih =>
    have h : escList (c :: cs) = escapeChar c ++ escList cs := by
      unfold escList
      rw [List.map_cons, List.flatten_cons]
    rw [h, List.length_cons, List.length_append]
    have := escapeChar_ne_nil c
    have h1 : 1 ≤ (escapeChar c).length := by
      cases hec : escapeChar c with
      | nil => exact absurd hec this
      | cons a l => simp
    omega

theorem parseU_hex {h3 h4 : Char} {x y : Nat} (e3 : hexVal? h3 = some x)
    (e4 : hexVal? h4 = some y) (hn : ((0 * 16 + 0) * 16 + x) * 16 + y < 0xD800)
    (rest : List Char) :
    parseU ('0' :: '0' :: h3 :: h4 :: rest) =
      some (Char.ofNat (((0 * 16 + 0) * 16 + x) * 16 + y), rest) := by
  have e0 : hexVal? '0' = some 0 := rfl
  rw [parseU.eq_def]
  simp only [e0, e3, e4]
  rw [if_neg (by omega), if_neg (by omega)]

/-- Round trip for string bodies: parsing the escaped content followed by the
closing quote recovers the content exactly. -/
theorem parseStringBody_escList (cs : List Char) : ∀ (fuel : Nat) (ext : List Char),
    cs.length + 1 ≤ fuel →
    parseStringBody fuel (escList cs ++ '"' :: ext) = some (cs, ext) := by
  induction cs with
  | nil =>
    intro fuel ext hf
    obtain ⟨f, rfl⟩ : ∃ f, fuel = f + 1 := ⟨fuel - 1, by omega⟩
    rfl
  | cons c cs ih =>
    intro fuel ext hf
    obtain ⟨f, rfl⟩ : ∃ f, fuel = f + 1 := ⟨fuel - 1, by omega⟩
    have hfc : cs.length + 1 ≤ f := by
      rw [List.length_cons] at hf; omega
    have hesc : escList (c :: cs) = escapeChar c ++ escList cs := by
      unfold escList
      rw [List.map_cons, List.flatten_cons]
    rw [hesc, List.append_assoc]
    by_cases h1 : c = '"'
    · subst h1
      rw [show escapeChar '"' = ['\\', '"'] from rfl]
      simp only [List.cons_append, List.nil_append]
      rw [parseStringBody.eq_def]
      simp only [ih f ext hfc]
      rw [if_pos trivial, if_neg (show ¬ ('"' : Char) = 'u' by decide)]
      rfl
    by_cases h2 : c = '\\'
    · subst h2
      rw [show escapeChar '\\' = ['\\', '\\'] from rfl]
      simp only [List.cons_append, List.nil_append]
      rw [parseStringBody.eq_def]
      simp only [ih f ext hfc]
      rw [if_pos trivial, if_neg (show ¬ ('\\' : Char) = 'u' by decide)]
      rfl
    by_cases h3 : c = '\n'
    · subst h3
      rw [show escapeChar '\n' = ['\\', 'n'] from rfl]
      simp only [List.cons_append, List.nil_append]
      rw [parseStringBody.eq_def]
      simp only [ih f ext hfc]
      rw [if_pos trivial, if_neg (show ¬ ('n' : Char) = 'u' by decide)]
      rfl
    by_cases h4 : c = '\r'
    · subst h4
      rw [show escapeChar '\r' = ['\\', 'r'] from rfl]
      simp only [List.cons_append, List.nil_append]
      rw [parseStringBody.eq_def]
      simp only [ih f ext hfc]
      rw [if_pos trivial, if_neg (show ¬ ('r' : Char) = 'u' by decide)]
      rfl
    by_cases h5 : c = '\t'
    · subst h5
      rw [show escapeChar '\t' = ['\\', 't'] from rfl]
      simp only [List.cons_append, List.nil_append]
      rw [parseStringBody.eq_def]
      simp only [ih f ext hfc]
      rw [if_pos trivial, if_neg (show ¬ ('t' : Char) = 'u' by decide)]
      rfl
    by_cases h6 : c.toNat = 8
    · have hc : c = Char.ofNat 8 := by rw [← h6]; exact (char_ofNat_toNat (by omega)).symm
      subst hc
      rw [show escapeChar (Char.ofNat 8) = ['\\', 'b'] from rfl]
      simp only [List.cons_append, List.nil_append]
      rw [parseStringBody.eq_def]
      simp only [ih f ext hfc]
      rw [if_pos trivial, if_neg (show ¬ ('b' : Char) = 'u' by decide)]
      rfl
    by_cases h7 : c.toNat = 12
    · have hc : c = Char.ofNat 12 := by rw [← h7]; exact (char_ofNat_toNat (by omega)).symm
      subst hc
      rw [show escapeChar (Char.ofNat 12) = ['\\', 'f'] from rfl]
      simp only [List.cons_append, List.nil_append]
      rw [parseStringBody.eq_def]
      simp only [ih f ext hfc]
      rw [if_pos trivial, if_neg (show ¬ ('f' : Char) = 'u' by decide)]
      rfl
    by_cases h8 : c.toNat < 0x20
    · have hlo : c.toNat / 16 < 16 := by omega
      have hhi : c.toNat % 16 < 16 := by omega
      have hec : escapeChar c =
          ['\\', 'u', '0', '0', hexDigitChar (c.toNat / 16), hexDigitChar (c.toNat % 16)] := by
        unfold escapeChar
        rw [if_neg h1, if_neg h2, if_neg h3, if_neg h4, if_neg h5, if_neg h6, if_neg h7,
          if_pos h8]
      rw [hec]
      simp only [List.cons_append, List.nil_append]
      rw [parseStringBody.eq_def]
      simp only [parseU_hex (hexVal?_hexDigitChar hlo) (hexVal?_hexDigitChar hhi) (by omega),
        ih f ext hfc]
      rw [if_pos trivial, if_pos trivial]
      have hv : ((0 * 16 + 0) * 16 + c.toNat / 16) * 16 + c.toNat % 16 = c.toNat := by omega
      rw [hv, char_ofNat_toNat (by omega)]
      rw [if_neg (show ¬ ('\\' : Char) = '"' by decide)]
    · have hec : escapeChar c = [c] := by
        unfold escapeChar
        rw [if_neg h1, if_neg h2, if_neg h3, if_neg h4, if_neg h5, if_neg h6, if_neg h7,
          if_neg h8]
      rw [hec]
      simp only [List.cons_append, List.nil_append]
      rw [parseStringBody.eq_def]
      simp only [ih f ext hfc]
      rw [if_neg h1, if_neg h2, if_neg h8]

theorem numNeg_not {c : Char} (t : List Char) (hc : c ≠ '-') :
    numNeg (c :: t) = (false, c :: t) := by
  rw [numNeg.eq_def]
  split
  · rename_i heq
    rw [List.cons.injEq] at heq
    exact absurd heq.1 hc
  · rfl

theorem numFrac_stop {ext : List Char} (hext : numStop ext) : numFrac ext = ([], ext) := by
  cases ext with
  | nil => rfl
  | cons c u =>
    obtain ⟨_, hdot, _, _⟩ := hext
    rw [numFrac.eq_def]
    split
    · rename_i heq
      rw [List.cons.injEq] at heq
      exact absurd heq.1 hdot
    · rfl

theorem numExp_stop {ext : List Char} (hext : numStop ext) : numExp ext = (none, ext) := by
  cases ext with
  | nil => rfl
  | cons e u =>
    obtain ⟨_, _, he, hE⟩ := hext
    simp only [numExp]
    rw [if_neg]
    intro h
    rcases h with h | h
    · exact he h
    · exact hE h

theorem isDigit_ne_minus {c : Char} (hc : isDigit c = true) : c ≠ '-' := by
  intro h
  subst h
  exact absurd hc (by decide)

theorem isDigit_ne_dot {c : Char} (hc : isDigit c = true) : c ≠ '.' := by
  intro h
  subst h
  exact absurd hc (by decide)

/-- If the decimal representation of `n` starts with `'0'` then `n = 0` and the
representation is exactly `"0"`. -/
theorem natRepr_head_zero {n : Nat} {t : List Char} (h : natRepr n = '0' :: t) :
    n = 0 ∧ t = [] := by
  by_cases hn : n = 0
  · subst hn
    refine ⟨rfl, ?_⟩
    have : natRepr 0 = ['0'] := rfl
    rw [this] at h
    exact (List.cons.injEq _ _ _ _).mp h.symm |>.2
  · exact absurd rfl (natRepr_head_ne_zero hn h)

theorem parseNumber_int (cs : List Char) (neg : Bool) (n : Nat) (ext : List Char)
    (hneg : numNeg cs = (neg, natRepr n ++ ext)) (hext : numStop ext) :
    parseNumber cs = some (.num (if neg = true then -(n : Int) else (n : Int)) 0, ext) := by
  obtain ⟨c, t, hct⟩ : ∃ c t, natRepr n = c :: t := by
    cases h : natRepr n with
    | nil => exact absurd h (natRepr_ne_nil n)
    | cons c t => exact ⟨c, t, rfl⟩
  have hdig : ∀ d ∈ natRepr n, isDigit d = true := natRepr_digits n
  have hc : isDigit c = true := hdig c (by rw [hct]; simp)
  have ht : ∀ d ∈ t, isDigit d = true := fun d hd => hdig d (by rw [hct]; simp [hd])
  have h_int : numInt c (t ++ ext) = (c :: t, ext) := by
    by_cases hc0 : c = '0'
    · subst hc0
      obtain ⟨hn0, ht0⟩ := natRepr_head_zero hct
      subst ht0
      unfold numInt
      rw [if_pos rfl]
      rfl
    · unfold numInt
      rw [if_neg hc0]
      obtain ⟨htw, hdw⟩ := takeWhile_digits_append ht hext
      rw [htw, hdw]
  rw [hct, List.cons_append] at hneg
  rw [parseNumber.eq_def]
  simp only [hneg, h_int, if_neg (show ¬ ¬ isDigit c = true by simp [hc]),
    numFrac_stop hext, numExp_stop hext]
  rw [show digitsVal (c :: t) = n from by rw [← hct]; exact digitsVal_natRepr n]
  simp

theorem takeWhile_digits_append2 {l : List Char} {r : Char} (rs : List Char)
    (hl : ∀ c ∈ l, isDigit c = true) (hr : isDigit r = false) :
    (l ++ r :: rs).takeWhile isDigit = l ∧ (l ++ r :: rs).dropWhile isDigit = r :: rs := by
  induction l with
  | nil =>
    simp only [List.nil_append]
    rw [List.takeWhile_cons, List.dropWhile_cons, hr]
    exact ⟨rfl, rfl⟩
  | cons c l ih =>
    have hc : isDigit c = true := hl c (by simp)
    have hl' : ∀ c ∈ l, isDigit c = true := fun c hcm => hl c (by simp [hcm])
    obtain ⟨iht, ihd⟩ := ih hl'
    rw [List.cons_append, List.takeWhile_cons, List.dropWhile_cons, hc]
    exact ⟨by rw [if_pos rfl, iht], by rw [if_pos rfl, ihd]⟩

theorem numFrac_dot (u : List Char) (h : u.takeWhile isDigit ≠ []) :
    numFrac ('.' :: u) = (u.takeWhile isDigit, u.dropWhile isDigit) := by
  simp only [numFrac]
  rw [if_neg h]

theorem parseNumber_frac (cs : List Char) (neg : Bool) (ds : List Char) (s : Nat)
    (ext : List Char) (hds : ∀ c ∈ ds, isDigit c = true) (hlen : s < ds.length)
    (hs : s ≠ 0) (hhead0 : ∀ t, ds = '0' :: t → ds.length = s + 1)
    (hneg : numNeg cs =
      (neg, ds.take (ds.length - s) ++ '.' :: (ds.drop (ds.length - s) ++ ext)))
    (hext : numStop ext) :
    parseNumber cs =
      some (.num (if neg = true then -(digitsVal ds : Int) else (digitsVal ds : Int)) s,
        ext) := by
  have htlen : (ds.take (ds.length - s)).length = ds.length - s := by
    rw [List.length_take]
    omega
  obtain ⟨c, t', hct⟩ : ∃ c t', ds.take (ds.length - s) = c :: t' := by
    cases h : ds.take (ds.length - s) with
    | nil => rw [h] at htlen; simp at htlen; omega
    | cons c t' => exact ⟨c, t', rfl⟩
  have htake_sub : ∀ d ∈ ds.take (ds.length - s), isDigit d = true :=
    fun d hd => hds d (List.take_subset _ _ hd)
  have hc : isDigit c = true := htake_sub c (by rw [hct]; simp)
  have ht' : ∀ d ∈ t', isDigit d = true := fun d hd => htake_sub d (by rw [hct]; simp [hd])
  have hdrop_sub : ∀ d ∈ ds.drop (ds.length - s), isDigit d = true :=
    fun d hd => hds d (List.drop_subset _ _ hd)
  have hdlen : (ds.drop (ds.length - s)).length = s := by
    rw [List.length_drop]
    omega
  obtain ⟨htwu, hdwu⟩ := takeWhile_digits_append hdrop_sub hext
  have hdrop_ne : ((ds.drop (ds.length - s) ++ ext)).takeWhile isDigit ≠ [] := by
    rw [htwu]
    intro h
    rw [h] at hdlen
    simp at hdlen
    omega
  have h_int : numInt c (t' ++ '.' :: (ds.drop (ds.length - s) ++ ext)) =
      (c :: t', '.' :: (ds.drop (ds.length - s) ++ ext)) := by
    by_cases hc0 : c = '0'
    · subst hc0
      have hds_eq : ds = '0' :: (t' ++ ds.drop (ds.length - s)) := by
        conv_lhs => rw [← List.take_append_drop (ds.length - s) ds]
        rw [hct]
        rfl
      have hL : ds.length = s + 1 := hhead0 _ hds_eq
      have h1 : ('0' :: t').length = 1 := by
        rw [← hct, htlen, hL]
        omega
      simp only [List.length_cons] at h1
      have ht'nil : t' = [] := List.length_eq_zero.mp (by omega)
      subst ht'nil
      unfold numInt
      rw [if_pos rfl]
      rfl
    · unfold numInt
      rw [if_neg hc0]
      obtain ⟨htw2, hdw2⟩ :=
        takeWhile_digits_append2 (ds.drop (ds.length - s) ++ ext) ht'
          (show isDigit '.' = false by decide)
      rw [htw2, hdw2]
  rw [hct, List.cons_append] at hneg
  rw [parseNumber.eq_def]
  simp only [hneg, h_int, if_neg (show ¬ ¬ isDigit c = true by simp [hc]),
    numFrac_dot _ hdrop_ne, htwu, hdwu, numExp_stop hext]
  simp only [hdlen]
  rw [if_neg hs]
  have hmacc : digitsVal (c :: t') * 10 ^ s + digitsVal (ds.drop (ds.length - s)) =
      digitsVal ds := by
    rw [← hct]
    conv_rhs => rw [← List.take_append_drop (ds.length - s) ds]
    rw [digitsVal_append, hdlen]
  rw [hmacc]

theorem padded_digits {z : Nat} {n : Nat} :
    ∀ c ∈ List.replicate z '0' ++ natRepr n, isDigit c = true := by
  intro c hc
  rcases List.mem_append.mp hc with h | h
  · rw [List.eq_of_mem_replicate h]; decide
  · exact natRepr_digits n c h

/-- Round trip for serialised numbers: `json.dumps` output for `num m s`
reparses to exactly `num m s`. -/
theorem parseNumber_numRepr (m : Int) (s : Nat) (ext : List Char) (hext : numStop ext) :
    parseNumber (numRepr m s ++ ext) = some (.num m s, ext) := by
  by_cases hs : s = 0
  · subst hs
    by_cases hm : m < 0
    · have hnr : numRepr m 0 = '-' :: natRepr m.natAbs := by
        unfold numRepr
        rw [if_pos hm, if_pos rfl]
        rfl
      rw [hnr, List.cons_append]
      rw [parseNumber_int ('-' :: (natRepr m.natAbs ++ ext)) true m.natAbs ext rfl hext]
      have : -(m.natAbs : Int) = m := by omega
      rw [if_pos rfl, this]
    · have hnr : numRepr m 0 = natRepr m.natAbs := by
        unfold numRepr
        rw [if_neg hm, if_pos rfl]
        rfl
      obtain ⟨c, t, hct⟩ : ∃ c t, natRepr m.natAbs = c :: t := by
        cases h : natRepr m.natAbs with
        | nil => exact absurd h (natRepr_ne_nil _)
        | cons c t => exact ⟨c, t, rfl⟩
      have hc : isDigit c = true := natRepr_digits _ c (by rw [hct]; simp)
      have hneg : numNeg (numRepr m 0 ++ ext) = (false, natRepr m.natAbs ++ ext) := by
        rw [hnr, hct, List.cons_append]
        exact numNeg_not _ (isDigit_ne_minus hc)
      rw [parseNumber_int _ false m.natAbs ext hneg hext]
      have : (m.natAbs : Int) = m := Int.natAbs_of_nonneg (le_of_not_lt hm)
      rw [if_neg (by decide), this]
  · set ds : List Char :=
      if (natRepr m.natAbs).length ≤ s then
        List.replicate (s + 1 - (natRepr m.natAbs).length) '0' ++ natRepr m.natAbs
      else natRepr m.natAbs with hds_def
    have hds : ∀ c ∈ ds, isDigit c = true := by
      rw [hds_def]
      split
      · exact padded_digits
      · exact natRepr_digits _
    have hlen : s < ds.length := by
      rw [hds_def]
      split
      · rename_i hpad
        rw [List.length_append, List.length_replicate]
        omega
      · rename_i hpad
        omega
    have hhead0 : ∀ t, ds = '0' :: t → ds.length = s + 1 := by
      intro t ht
      rw [hds_def] at ht ⊢
      revert ht
      split
      · rename_i hpad
        intro _
        rw [List.length_append, List.length_replicate]
        omega
      · rename_i hpad
        intro ht
        obtain ⟨hn0, -⟩ := natRepr_head_zero ht
        rw [show natRepr m.natAbs = ['0'] from by rw [show m.natAbs = 0 from hn0]; rfl]
          at hpad
        simp at hpad
        omega
    have hval : digitsVal ds = m.natAbs := by
      rw [hds_def]
      split
      · rw [digitsVal_zeros]
        exact digitsVal_natRepr _
      · exact digitsVal_natRepr _
    by_cases hm : m < 0
    · have hnr : numRepr m s ++ ext =
          '-' :: (ds.take (ds.length - s) ++ '.' :: (ds.drop (ds.length - s) ++ ext)) := by
        unfold numRepr
        rw [if_pos hm, if_neg hs, ← hds_def]
        simp [List.append_assoc]
      rw [hnr]
      rw [parseNumber_frac
        ('-' :: (ds.take (ds.length - s) ++ '.' :: (ds.drop (ds.length - s) ++ ext)))
        true ds s ext hds hlen hs hhead0 rfl hext]
      rw [if_pos rfl, hval]
      have : -(m.natAbs : Int) = m := by omega
      rw [this]
    · have hnr : numRepr m s ++ ext =
          ds.take (ds.length - s) ++ '.' :: (ds.drop (ds.length - s) ++ ext) := by
        unfold numRepr
        rw [if_neg hm, if_neg hs, ← hds_def]
        simp [List.append_assoc]
      obtain ⟨c, t', hct⟩ : ∃ c t', ds.take (ds.length - s) = c :: t' := by
        cases h : ds.take (ds.length - s) with
        | nil =>
          have : (ds.take (ds.length - s)).length = ds.length - s := by
            rw [List.length_take]; omega
          rw [h] at this
          simp at this
          omega
        | cons c t' => exact ⟨c, t', rfl⟩
      have hc : isDigit c = true :=
        hds c (List.take_subset _ _ (by rw [hct]; simp))
      have hneg : numNeg (numRepr m s ++ ext) =
          (false, ds.take (ds.length - s) ++ '.' :: (ds.drop (ds.length - s) ++ ext)) := by
        rw [hnr, hct, List.cons_append]
        exact numNeg_not _ (isDigit_ne_minus hc)
      rw [parseNumber_frac _ false ds s ext hds hlen hs hhead0 hneg hext]
      rw [if_neg (by decide), hval]
      have : (m.natAbs : Int) = m := Int.natAbs_of_nonneg (le_of_not_lt hm)
      rw [this]

theorem isDigit_bounds {c : Char} (h : isDigit c = true) : 48 ≤ c.toNat ∧ c.toNat ≤ 57 := by
  unfold isDigit at h
  simp only [Bool.and_eq_true, decide_eq_true_eq] at h
  obtain ⟨h1, h2⟩ := h
  exact ⟨h1, h2⟩

theorem isDigit_facts {c : Char} (h : isDigit c = true) :
    isWs c = false ∧ c ≠ ']' ∧ c ≠ '}' ∧ c ≠ '{' ∧ c ≠ '[' ∧ c ≠ '"' ∧ c ≠ 't' ∧
      c ≠ 'f' ∧ c ≠ 'n' ∧ c ≠ '-' := by
  obtain ⟨h1, h2⟩ := isDigit_bounds h
  refine ⟨?_, ?_, ?_, ?_, ?_, ?_, ?_, ?_, ?_, ?_⟩
  · unfold isWs
    simp only [Bool.or_eq_false_iff, decide_eq_false_iff_not]
    refine ⟨⟨⟨?_, ?_⟩, ?_⟩, ?_⟩ <;> (intro hc; subst hc; revert h; decide)
  all_goals (intro hc; subst hc; revert h; decide)

/-- A serialised number starts with a minus sign or a digit. -/
theorem numRepr_cons (m : Int) (s : Nat) :
    ∃ c t, numRepr m s = c :: t ∧ (c = '-' ∨ isDigit c = true) := by
  by_cases hs : s = 0
  · subst hs
    by_cases hm : m < 0
    · refine ⟨'-', natRepr m.natAbs, ?_, Or.inl rfl⟩
      unfold numRepr
      rw [if_pos hm, if_pos rfl]
      rfl
    · obtain ⟨c, t, hct⟩ : ∃ c t, natRepr m.natAbs = c :: t := by
        cases h : natRepr m.natAbs with
        | nil => exact absurd h (natRepr_ne_nil _)
        | cons c t => exact ⟨c, t, rfl⟩
      refine ⟨c, t, ?_, Or.inr (natRepr_digits _ c (by rw [hct]; simp))⟩
      unfold numRepr
      rw [if_neg hm, if_pos rfl]
      rw [show ([] : List Char) ++ natRepr m.natAbs = natRepr m.natAbs from rfl, hct]
  · set ds : List Char :=
      if (natRepr m.natAbs).length ≤ s then
        List.replicate (s + 1 - (natRepr m.natAbs).length) '0' ++ natRepr m.natAbs
      else natRepr m.natAbs with hds_def
    have hds : ∀ c ∈ ds, isDigit c = true := by
      rw [hds_def]
      split
      · exact padded_digits
      · exact natRepr_digits _
    have hlen : s < ds.length := by
      rw [hds_def]
      split
      · rename_i hpad
        rw [List.length_append, List.length_replicate]
        omega
      · rename_i hpad
        omega
    obtain ⟨c, t', hct⟩ : ∃ c t', ds.take (ds.length - s) = c :: t' := by
      cases h : ds.take (ds.length - s) with
      | nil =>
        have hl2 : (ds.take (ds.length - s)).length = ds.length - s := by
          rw [List.length_take]; omega
        rw [h] at hl2
        simp at hl2
        omega
      | cons c t' => exact ⟨c, t', rfl⟩
    have hc : isDigit c = true := hds c (List.take_subset _ _ (by rw [hct]; simp))
    by_cases hm : m < 0
    · refine ⟨'-', ds.take (ds.length - s) ++ '.' :: ds.drop (ds.length - s), ?_, Or.inl rfl⟩
      unfold numRepr
      rw [if_pos hm, if_neg hs, ← hds_def]
      rfl
    · refine ⟨c, t' ++ '.' :: ds.drop (ds.length - s), ?_, Or.inr hc⟩
      unfold numRepr
      rw [if_neg hm, if_neg hs, ← hds_def]
      show ds.take (ds.length - s) ++ '.' :: ds.drop (ds.length - s) =
        c :: (t' ++ '.' :: ds.drop (ds.length - s))
      rw [hct, List.cons_append]

/-- The serialisation of any value starts with a non-whitespace character that
is not a closing bracket. -/
theorem dump_head (w level : Nat) (d : Json) :
    ∃ c t, dumpVal w level d = c :: t ∧ isWs c = false ∧ c ≠ ']' ∧ c ≠ '}' := by
  have hgood : ∀ c : Char, c ∈ (['n', 't', 'f', '"', '[', '{'] : List Char) →
      isWs c = false ∧ c ≠ ']' ∧ c ≠ '}' := by decide
  cases d with
  | null => exact ⟨'n', _, rfl, hgood 'n' (by decide)⟩
  | bool b =>
    cases b with
    | true => exact ⟨'t', _, rfl, hgood 't' (by decide)⟩
    | false => exact ⟨'f', _, rfl, hgood 'f' (by decide)⟩
  | num m s =>
    obtain ⟨c, t, hct, hd⟩ := numRepr_cons m s
    refine ⟨c, t, hct, ?_⟩
    rcases hd with h | h
    · subst h
      exact ⟨by decide, by decide, by decide⟩
    · obtain ⟨h1, h2, h3, _⟩ := isDigit_facts h
      exact ⟨h1, h2, h3⟩
  | str s => exact ⟨'"', _, rfl, hgood '"' (by decide)⟩
  | arr xs =>
    cases xs with
    | nil => exact ⟨'[', _, rfl, hgood '[' (by decide)⟩
    | cons x xs => exact ⟨'[', _, rfl, hgood '[' (by decide)⟩
  | obj kvs =>
    cases kvs with
    | nil => exact ⟨'{', _, rfl, hgood '{' (by decide)⟩
    | cons kv kvs =>
      obtain ⟨k, v⟩ := kv
      exact ⟨'{', _, rfl, hgood '{' (by decide)⟩

theorem skipWs_nl (w k : Nat) (X : List Char) : skipWs (nlIndent w k ++ X) = skipWs X :=
  skipWs_append (nlIndent_ws w k)

theorem skipWs_dump (w l : Nat) (y : Json) (E : List Char) :
    skipWs (dumpVal w l y ++ E) = dumpVal w l y ++ E := by
  obtain ⟨c, t, hct, hws, -, -⟩ := dump_head w l y
  rw [hct, List.cons_append, skipWs_cons _ hws]

theorem parseValue_num (f : Nat) {c : Char} (rest : List Char)
    (h : c = '-' ∨ isDigit c = true) :
    parseValue (f + 1) (c :: rest) = parseNumber (c :: rest) := by
  rcases h with h | h
  · subst h
    rfl
  · obtain ⟨-, -, -, hbr, hsq, hq, ht, hf, hn, -⟩ := isDigit_facts h
    simp only [parseValue]
    rw [if_neg hbr, if_neg hsq, if_neg hq, if_neg ht, if_neg hf, if_neg hn,
      if_pos (Or.inr h)]

theorem parseValue_str (f : Nat) {R content rest2 : List Char}
    (h : parseStringBody (R.length + 1) R = some (content, rest2)) :
    parseValue (f + 1) ('"' :: R) = some (.str (String.mk content), rest2) := by
  simp only [parseValue]
  rw [if_neg (show ¬ ('"' : Char) = '{' by decide), if_neg (show ¬ ('"' : Char) = '[' by decide),
    if_pos trivial, h]

theorem parseValue_arr (f : Nat) {R : List Char} {c : Char} {t : List Char}
    (hR : skipWs R = c :: t) (hne : c ≠ ']') :
    parseValue (f + 1) ('[' :: R) = parseArrBody f (c :: t) [] := by
  simp only [parseValue]
  rw [if_neg (show ¬ ('[' : Char) = '{' by decide), if_pos trivial, hR]
  split
  · rename_i heq
    rw [List.cons.injEq] at heq
    exact absurd heq.1 hne
  · rfl

theorem parseValue_obj (f : Nat) {R : List Char} {c : Char} {t : List Char}
    (hR : skipWs R = c :: t) (hne : c ≠ '}') :
    parseValue (f + 1) ('{' :: R) = parseObjBody f (c :: t) [] := by
  simp only [parseValue]
  rw [if_pos trivial, hR]
  split
  · rename_i heq
    rw [List.cons.injEq] at heq
    exact absurd heq.1 hne
  · rfl

theorem insertMember_append {acc : List (String × Json)} {k : String} (v : Json)
    (h : k ∉ acc.map Prod.fst) :
    insertMember acc k v = acc ++ [(k, v)] := by
  induction acc with
  | nil => rfl
  | cons kv rest ih =>
    obtain ⟨k', v'⟩ := kv
    unfold insertMember
    rw [List.map_cons, List.mem_cons] at h
    push_neg at h
    have hkk : ¬ k = k' := by simpa using h.1
    rw [if_neg (fun hk => hkk hk.symm)]
    rw [ih h.2]
    rfl

theorem keyFresh_iff {k : String} {kvs : List (String × Json)} :
    keyFresh k kvs = true ↔ ∀ p ∈ kvs, p.1 ≠ k := by
  unfold keyFresh
  rw [List.all_eq_true]
  constructor
  · intro h p hp
    have := h p hp
    simpa using this
  · intro h p hp
    simpa using h p hp

theorem numStop_dumpArrTail (w level : Nat) (xs : List Json) (ext : List Char) :
    numStop (dumpArrTail w level xs ++ ext) := by
  cases xs with
  | nil =>
    show numStop (('\n' :: (List.replicate (w * level) ' ' ++ [']'])) ++ ext)
    exact ⟨by decide, by decide, by decide, by decide⟩
  | cons y ys =>
    exact ⟨by decide, by decide, by decide, by decide⟩

theorem numStop_dumpObjTail (w level : Nat) (kvs : List (String × Json)) (ext : List Char) :
    numStop (dumpObjTail w level kvs ++ ext) := by
  cases kvs with
  | nil =>
    show numStop (('\n' :: (List.replicate (w * level) ' ' ++ ['}'])) ++ ext)
    exact ⟨by decide, by decide, by decide, by decide⟩
  | cons kv kvs2 =>
    obtain ⟨k2, v2⟩ := kv
    exact ⟨by decide, by decide, by decide, by decide⟩

theorem dump_len_pos (w level : Nat) (d : Json) : 1 ≤ (dumpVal w level d).length := by
  obtain ⟨c, t, hct, -⟩ := dump_head w level d
  rw [hct]
  simp

theorem dAT_len_pos (w level : Nat) (xs : List Json) : 1 ≤ (dumpArrTail w level xs).length := by
  cases xs with
  | nil =>
    show 1 ≤ (nlIndent w level ++ [']']).length
    simp [nlIndent]
  | cons y ys => simp [dumpArrTail]

theorem dOT_len_pos (w level : Nat) (kvs : List (String × Json)) :
    1 ≤ (dumpObjTail w level kvs).length := by
  cases kvs with
  | nil =>
    show 1 ≤ (nlIndent w level ++ ['}']).length
    simp [nlIndent]
  | cons kv kvs2 =>
    obtain ⟨k2, v2⟩ := kv
    simp [dumpObjTail]

theorem skipWs_ws_cons {c : Char} (l : List Char) (hc : isWs c = true) :
    skipWs (c :: l) = skipWs l := by
  unfold skipWs
  rw [List.dropWhile_cons, hc]
  simp


theorem json_sizeOf_pos (d : Json) : 1 ≤ sizeOf d := by
  cases d <;> (simp; try omega)

theorem listJson_sizeOf_pos (xs : List Json) : 1 ≤ sizeOf xs := by
  cases xs <;> (simp; try omega)

theorem listMem_sizeOf_pos (kvs : List (String × Json)) : 1 ≤ sizeOf kvs := by
  cases kvs <;> (simp; try omega)

/-- Combined round-trip statement for values, array tails and object tails,
by strong induction on the size of the value. -/
theorem parse_all (N : Nat) :
    (∀ w level fuel (d : Json) (ext : List Char), sizeOf d ≤ N → goodJson d = true →
      (dumpVal w level d).length ≤ fuel → numStop ext →
      parseValue fuel (dumpVal w level d ++ ext) = some (d, ext)) ∧
    (∀ w level fuel (x : Json) (xs : List Json) (acc : List Json) (ext : List Char),
      sizeOf x + sizeOf xs ≤ N → goodJson x = true → goodList xs = true →
      (dumpVal w (level + 1) x).length + (dumpArrTail w level xs).length ≤ fuel →
      numStop ext →
      parseArrBody fuel (dumpVal w (level + 1) x ++ (dumpArrTail w level xs ++ ext)) acc =
        some (.arr (acc ++ x :: xs), ext)) ∧
    (∀ w level fuel (k : String) (v : Json) (kvs : List (String × Json))
      (acc : List (String × Json)) (ext : List Char),
      sizeOf v + sizeOf kvs ≤ N → goodJson v = true → goodMems kvs = true →
      keyFresh k kvs = true → (∀ p ∈ (k, v) :: kvs, p.1 ∉ acc.map Prod.fst) →
      ('"' :: (escList k.data ++ ('"' :: ':' :: ' ' :: (dumpVal w (level + 1) v ++
        dumpObjTail w level kvs)))).length ≤ fuel →
      numStop ext →
      parseObjBody fuel ('"' :: (escList k.data ++ ('"' :: ':' :: ' ' ::
          (dumpVal w (level + 1) v ++ (dumpObjTail w level kvs ++ ext))))) acc =
        some (.obj (acc ++ (k, v) :: kvs), ext)) := by
  induction N with
  | zero =>
    refine ⟨fun w level fuel d ext hN _ _ _ => ?_,
      fun w level fuel x xs acc ext hN _ _ _ _ => ?_,
      fun w level fuel k v kvs acc ext hN _ _ _ _ _ _ => ?_⟩
    · exact absurd hN (by have := json_sizeOf_pos d; omega)
    · exact absurd hN (by have := json_sizeOf_pos x; omega)
    · exact absurd hN (by have := json_sizeOf_pos v; omega)
  | succ N ih =>
    obtain ⟨ihd, iha, iho⟩ := ih
    refine ⟨?_, ?_, ?_⟩
    · intro w level fuel d ext hN hd hf hext
      obtain ⟨f, rfl⟩ : ∃ f, fuel = f + 1 :=
        ⟨fuel - 1, by have := dump_len_pos w level d; omega⟩
      cases d with
      | null =>
        show parseValue (f + 1) ('n' :: ('u' :: 'l' :: 'l' :: ext)) = some (.null, ext)
        rfl
      | bool b =>
        cases b with
        | true =>
          show parseValue (f + 1) ('t' :: ('r' :: 'u' :: 'e' :: ext)) = some (.bool true, ext)
          rfl
        | false =>
          show parseValue (f + 1) ('f' :: ('a' :: 'l' :: 's' :: 'e' :: ext)) =
            some (.bool false, ext)
          rfl
      | num m s =>
        obtain ⟨c, t, hct, hcd⟩ := numRepr_cons m s
        show parseValue (f + 1) (numRepr m s ++ ext) = some (.num m s, ext)
        rw [hct, List.cons_append, parseValue_num f _ hcd, ← List.cons_append, ← hct]
        exact parseNumber_numRepr m s ext hext
      | str sstr =>
        have hin : dumpVal w level (.str sstr) ++ ext =
            '"' :: (escList sstr.data ++ '"' :: ext) := by
          show ('"' :: (escList sstr.data ++ ['"'])) ++ ext = _
          rw [List.cons_append, List.append_assoc]
          rfl
        rw [hin]
        have hps := parseStringBody_escList sstr.data
          ((escList sstr.data ++ '"' :: ext).length + 1) ext
          (by have := escList_length_ge sstr.data; rw [List.length_append, List.length_cons]
              omega)
        rw [parseValue_str f hps]
      | arr xs =>
        cases xs with
        | nil =>
          show parseValue (f + 1) ('[' :: (']' :: ext)) = some (.arr [], ext)
          rfl
        | cons x xs2 =>
          simp only [goodJson, goodList, Bool.and_eq_true] at hd
          obtain ⟨c, t, hct, hws, hnb, -⟩ := dump_head w (level + 1) x
          have hin : dumpVal w level (.arr (x :: xs2)) ++ ext =
              '[' :: (nlIndent w (level + 1) ++
                (dumpVal w (level + 1) x ++ (dumpArrTail w level xs2 ++ ext))) := by
            show ('[' :: (nlIndent w (level + 1) ++ dumpVal w (level + 1) x ++
              dumpArrTail w level xs2)) ++ ext = _
            rw [List.cons_append, List.append_assoc, List.append_assoc]
          rw [hin]
          have hskip : skipWs (nlIndent w (level + 1) ++
              (dumpVal w (level + 1) x ++ (dumpArrTail w level xs2 ++ ext))) =
              c :: (t ++ (dumpArrTail w level xs2 ++ ext)) := by
            rw [skipWs_nl, hct, List.cons_append, skipWs_cons _ hws]
          rw [parseValue_arr f hskip hnb]
          rw [show c :: (t ++ (dumpArrTail w level xs2 ++ ext)) =
            dumpVal w (level + 1) x ++ (dumpArrTail w level xs2 ++ ext) from
            by rw [hct, List.cons_append]]
          have hlen : (dumpVal w level (.arr (x :: xs2))).length =
              1 + (nlIndent w (level + 1)).length + (dumpVal w (level + 1) x).length +
                (dumpArrTail w level xs2).length := by
            show ('[' :: (nlIndent w (level + 1) ++ dumpVal w (level + 1) x ++
              dumpArrTail w level xs2)).length = _
            rw [List.length_cons, List.length_append, List.length_append]
            omega
          have hnl : 1 ≤ (nlIndent w (level + 1)).length := by simp [nlIndent]
          have hfx : (dumpVal w (level + 1) x).length +
              (dumpArrTail w level xs2).length ≤ f := by
            rw [hlen] at hf
            omega
          have hN2 : sizeOf x + sizeOf xs2 ≤ N := by
            simp only [Json.arr.sizeOf_spec, List.cons.sizeOf_spec] at hN
            omega
          have harr := iha w level f x xs2 [] ext hN2 hd.1 hd.2 hfx hext
          rw [harr, List.nil_append]
      | obj kvs =>
        cases kvs with
        | nil =>
          show parseValue (f + 1) ('{' :: ('}' :: ext)) = some (.obj [], ext)
          rfl
        | cons kv kvs2 =>
          obtain ⟨k, v⟩ := kv
          simp only [goodJson, goodMems, Bool.and_eq_true] at hd
          have hin : dumpVal w level (.obj ((k, v) :: kvs2)) ++ ext =
              '{' :: (nlIndent w (level + 1) ++ ('"' :: (escList k.data ++
                ('"' :: ':' :: ' ' :: (dumpVal w (level + 1) v ++
                  (dumpObjTail w level kvs2 ++ ext)))))) := by
            show ('{' :: (nlIndent w (level + 1) ++ '"' :: (escList k.data ++
              ['"', ':', ' '] ++ dumpVal w (level + 1) v ++
              dumpObjTail w level kvs2))) ++ ext = _
            simp [List.append_assoc]
          rw [hin]
          have hskip : skipWs (nlIndent w (level + 1) ++ ('"' :: (escList k.data ++
              ('"' :: ':' :: ' ' :: (dumpVal w (level + 1) v ++
                (dumpObjTail w level kvs2 ++ ext)))))) =
              '"' :: (escList k.data ++ ('"' :: ':' :: ' ' ::
                (dumpVal w (level + 1) v ++ (dumpObjTail w level kvs2 ++ ext)))) := by
            rw [skipWs_nl, skipWs_cons _ (by decide)]
          rw [parseValue_obj f hskip (by decide)]
          have hlen : (dumpVal w level (.obj ((k, v) :: kvs2))).length =
              1 + (nlIndent w (level + 1)).length +
                ('"' :: (escList k.data ++ ('"' :: ':' :: ' ' ::
                  (dumpVal w (level + 1) v ++ dumpObjTail w level kvs2)))).length := by
            show ('{' :: (nlIndent w (level + 1) ++ '"' :: (escList k.data ++
              ['"', ':', ' '] ++ dumpVal w (level + 1) v ++
              dumpObjTail w level kvs2))).length = _
            simp [List.append_assoc]
            omega
          have hnl : 1 ≤ (nlIndent w (level + 1)).length := by simp [nlIndent]
          have hfo : ('"' :: (escList k.data ++ ('"' :: ':' :: ' ' ::
              (dumpVal w (level + 1) v ++ dumpObjTail w level kvs2)))).length ≤ f := by
            rw [hlen] at hf
            omega
          have hN2 : sizeOf v + sizeOf kvs2 ≤ N := by
            simp only [Json.obj.sizeOf_spec, List.cons.sizeOf_spec,
              Prod.mk.sizeOf_spec] at hN
            omega
          have hobj := iho w level f k v kvs2 [] ext hN2 hd.1.2 hd.2 hd.1.1
            (by intro p hp; simp) hfo hext
          rw [hobj, List.nil_append]
    · intro w level fuel x xs acc ext hN hx hxs hf hext
      obtain ⟨g, rfl⟩ : ∃ g, fuel = g + 1 :=
        ⟨fuel - 1, by
          have := dump_len_pos w (level + 1) x
          have := dAT_len_pos w level xs
          omega⟩
      have hNx : sizeOf x ≤ N := by
        have := listJson_sizeOf_pos xs
        omega
      have hpd := ihd w (level + 1) g x (dumpArrTail w level xs ++ ext) hNx hx
        (by have := dAT_len_pos w level xs; omega) (numStop_dumpArrTail w level xs ext)
      simp only [parseArrBody, hpd]
      cases xs with
      | nil =>
        have hsk : skipWs (dumpArrTail w level [] ++ ext) = ']' :: ext := by
          show skipWs ((nlIndent w level ++ [']']) ++ ext) = _
          rw [List.append_assoc, skipWs_nl]
          show skipWs (']' :: ext) = _
          rw [skipWs_cons _ (by decide)]
        simp only [hsk]
      | cons y ys =>
        simp only [goodList, Bool.and_eq_true] at hxs
        have hsk : skipWs (dumpArrTail w level (y :: ys) ++ ext) =
            ',' :: ((nlIndent w (level + 1) ++ dumpVal w (level + 1) y ++
              dumpArrTail w level ys) ++ ext) := by
          show skipWs ((',' :: (nlIndent w (level + 1) ++ dumpVal w (level + 1) y ++
            dumpArrTail w level ys)) ++ ext) = _
          rw [List.cons_append, skipWs_cons _ (by decide)]
        simp only [hsk]
        have hsk2 : skipWs ((nlIndent w (level + 1) ++ dumpVal w (level + 1) y ++
            dumpArrTail w level ys) ++ ext) =
            dumpVal w (level + 1) y ++ (dumpArrTail w level ys ++ ext) := by
          rw [List.append_assoc, List.append_assoc, skipWs_nl, skipWs_dump]
        rw [hsk2]
        have hlen : (dumpArrTail w level (y :: ys)).length =
            1 + (nlIndent w (level + 1)).length + (dumpVal w (level + 1) y).length +
              (dumpArrTail w level ys).length := by
          show (',' :: (nlIndent w (level + 1) ++ dumpVal w (level + 1) y ++
            dumpArrTail w level ys)).length = _
          rw [List.length_cons, List.length_append, List.length_append]
          omega
        have hfy : (dumpVal w (level + 1) y).length +
            (dumpArrTail w level ys).length ≤ g := by
          have h1 := dump_len_pos w (level + 1) x
          have h2 : 1 ≤ (nlIndent w (level + 1)).length := by simp [nlIndent]
          rw [hlen] at hf
          omega
        have hN2 : sizeOf y + sizeOf ys ≤ N := by
          have := json_sizeOf_pos x
          simp only [List.cons.sizeOf_spec] at hN
          omega
        have harr := iha w level g y ys (acc ++ [x]) ext hN2 hxs.1 hxs.2 hfy hext
        rw [harr, List.append_assoc]
        rfl
    · intro w level fuel k v kvs acc ext hN hv hkvs hfresh hacc hf hext
      obtain ⟨g, rfl⟩ : ∃ g, fuel = g + 1 :=
        ⟨fuel - 1, by rw [List.length_cons] at hf; omega⟩
      simp only [parseObjBody]
      have hps := parseStringBody_escList k.data
        ((escList k.data ++ ('"' :: ':' :: ' ' :: (dumpVal w (level + 1) v ++
          (dumpObjTail w level kvs ++ ext)))).length + 1)
        (':' :: ' ' :: (dumpVal w (level + 1) v ++ (dumpObjTail w level kvs ++ ext)))
        (by have := escList_length_ge k.data; rw [List.length_append]; omega)
      simp only [hps]
      have hsk1 : skipWs (':' :: (' ' :: (dumpVal w (level + 1) v ++
          (dumpObjTail w level kvs ++ ext)))) = ':' :: (' ' :: (dumpVal w (level + 1) v ++
          (dumpObjTail w level kvs ++ ext))) := skipWs_cons _ (by decide)
      simp only [hsk1]
      have hsk2 : skipWs (' ' :: (dumpVal w (level + 1) v ++
          (dumpObjTail w level kvs ++ ext))) =
          dumpVal w (level + 1) v ++ (dumpObjTail w level kvs ++ ext) := by
        rw [skipWs_ws_cons _ (by decide), skipWs_dump]
      have hnum := numStop_dumpObjTail w level kvs ext
      have hfv : (dumpVal w (level + 1) v).length ≤ g := by
        rw [List.length_cons, List.length_append] at hf
        simp only [List.length_cons, List.length_append] at hf
        omega
      have hNv : sizeOf v ≤ N := by
        have := listMem_sizeOf_pos kvs
        omega
      have hpd := ihd w (level + 1) g v (dumpObjTail w level kvs ++ ext) hNv hv hfv hnum
      simp only [hsk2, hpd]
      have hkacc : k ∉ acc.map Prod.fst := hacc (k, v) (by simp)
      rw [show String.mk k.data = k from rfl]
      rw [insertMember_append v hkacc]
      cases kvs with
      | nil =>
        have hsk3 : skipWs (dumpObjTail w level [] ++ ext) = '}' :: ext := by
          show skipWs ((nlIndent w level ++ ['}']) ++ ext) = _
          rw [List.append_assoc, skipWs_nl]
          show skipWs ('}' :: ext) = _
          rw [skipWs_cons _ (by decide)]
        simp only [hsk3]
      | cons kv2 kvs2 =>
        obtain ⟨k2, v2⟩ := kv2
        simp only [goodMems, Bool.and_eq_true] at hkvs
        have hfr2 := keyFresh_iff.mp hfresh
        have hsk3 : skipWs (dumpObjTail w level ((k2, v2) :: kvs2) ++ ext) =
            ',' :: ((nlIndent w (level + 1) ++ '"' :: (escList k2.data ++ ['"', ':', ' '] ++
              dumpVal w (level + 1) v2 ++ dumpObjTail w level kvs2)) ++ ext) := by
          show skipWs ((',' :: (nlIndent w (level + 1) ++ '"' :: (escList k2.data ++
            ['"', ':', ' '] ++ dumpVal w (level + 1) v2 ++
            dumpObjTail w level kvs2))) ++ ext) = _
          rw [List.cons_append, skipWs_cons _ (by decide)]
        simp only [hsk3]
        have hsk4 : skipWs ((nlIndent w (level + 1) ++ '"' :: (escList k2.data ++
            ['"', ':', ' '] ++ dumpVal w (level + 1) v2 ++
            dumpObjTail w level kvs2)) ++ ext) =
            '"' :: (escList k2.data ++ ('"' :: ':' :: ' ' :: (dumpVal w (level + 1) v2 ++
              (dumpObjTail w level kvs2 ++ ext)))) := by
          rw [List.append_assoc, skipWs_nl]
          rw [show ('"' :: (escList k2.data ++ ['"', ':', ' '] ++
            dumpVal w (level + 1) v2 ++ dumpObjTail w level kvs2)) ++ ext =
            '"' :: (escList k2.data ++ ('"' :: ':' :: ' ' :: (dumpVal w (level + 1) v2 ++
              (dumpObjTail w level kvs2 ++ ext)))) from by simp [List.append_assoc]]
          rw [skipWs_cons _ (by decide)]
        rw [hsk4]
        have hacc2 : ∀ p ∈ (k2, v2) :: kvs2, p.1 ∉ ((acc ++ [(k, v)]).map Prod.fst) := by
          intro p hp
          rw [List.map_append, List.mem_append]
          rintro (h | h)
          · exact hacc p (List.mem_cons_of_mem _ hp) h
          · simp only [List.map_cons, List.map_nil, List.mem_singleton] at h
            exact hfr2 p hp h
        have hlen2 : (dumpObjTail w level ((k2, v2) :: kvs2)).length =
            1 + (nlIndent w (level + 1)).length +
              ('"' :: (escList k2.data ++ ('"' :: ':' :: ' ' ::
                (dumpVal w (level + 1) v2 ++ dumpObjTail w level kvs2)))).length := by
          show (',' :: (nlIndent w (level + 1) ++ '"' :: (escList k2.data ++
            ['"', ':', ' '] ++ dumpVal w (level + 1) v2 ++
            dumpObjTail w level kvs2))).length = _
          simp [List.append_assoc]
          omega
        have hf2 : ('"' :: (escList k2.data ++ ('"' :: ':' :: ' ' ::
            (dumpVal w (level + 1) v2 ++ dumpObjTail w level kvs2)))).length ≤ g := by
          have h2 : 1 ≤ (nlIndent w (level + 1)).length := by simp [nlIndent]
          rw [List.length_cons] at hf
          simp only [List.length_append, List.length_cons] at hf hlen2
          simp only [List.length_cons, List.length_append]
          omega
        have hN2 : sizeOf v2 + sizeOf kvs2 ≤ N := by
          have := json_sizeOf_pos v
          simp only [List.cons.sizeOf_spec, Prod.mk.sizeOf_spec] at hN
          omega
        have hrec := iho w level g k2 v2 kvs2 (acc ++ [(k, v)]) ext hN2 hkvs.1.2 hkvs.2
          hkvs.1.1 hacc2 hf2 hext
        rw [hrec, List.append_assoc]
        rfl

/-- Round trip for serialised values at any sufficient fuel. -/
theorem parse_dump (w level fuel : Nat) (d : Json) (ext : List Char)
    (hd : goodJson d = true) (hf : (dumpVal w level d).length ≤ fuel)
    (hext : numStop ext) :
    parseValue fuel (dumpVal w level d ++ ext) = some (d, ext) :=
  (parse_all (sizeOf d)).1 w level fuel d ext le_rfl hd hf hext

/-- `json.loads` recovers any good value from its `format_json` serialisation. -/
theorem jsonLoads_format (d : Json) (h : goodJson d = true) :
    jsonLoads (format_json d) = some d := by
  have hsw : skipWs (dumpVal 2 0 d) = dumpVal 2 0 d := by
    have := skipWs_dump 2 0 d []
    rw [List.append_nil] at this
    exact this
  have hpv : parseValue ((dumpVal 2 0 d).length + 1) (dumpVal 2 0 d) = some (d, []) := by
    have := parse_dump 2 0 ((dumpVal 2 0 d).length + 1) d [] h (by omega) trivial
    rw [List.append_nil] at this
    exact this
  show (match parseValue ((dumpVal 2 0 d).length + 1) (skipWs (dumpVal 2 0 d)) with
    | some (v, rest) => if skipWs rest = [] then some v else none
    | none => none) = some d
  rw [hsw, hpv]
  rfl

/-- **C8.**  For every JSON value `d` built from string-keyed mappings (distinct
keys, as in a Python dict), sequences, strings, exact numbers, booleans and
null, `format_json d` reparses to the structurally equal value
(`json.loads(format_json(d)) == d`), formatting the reparsed value again yields
byte-identical text (idempotence), and non-ASCII characters (code points
`≥ 0x80`) are never escaped by the serialiser. -/
theorem c8_format_round_trip (d : Json) (h : goodJson d = true) :
    jsonLoads (format_json d) = some d ∧
    (∀ d', jsonLoads (format_json d) = some d' → format_json d' = format_json d) ∧
    (∀ c : Char, 0x80 ≤ c.toNat → escapeChar c = [c]) := by
  have hrt := jsonLoads_format d h
  refine ⟨hrt, ?_, ?_⟩
  · intro d' hd'
    rw [hrt, Option.some_inj] at hd'
    rw [hd']
  · intro c hc
    unfold escapeChar
    rw [if_neg (fun hq => absurd hc (by rw [hq]; decide)),
      if_neg (fun hq => absurd hc (by rw [hq]; decide)),
      if_neg (fun hq => absurd hc (by rw [hq]; decide)),
      if_neg (fun hq => absurd hc (by rw [hq]; decide)),
      if_neg (fun hq => absurd hc (by rw [hq]; decide)),
      if_neg (by omega), if_neg (by omega), if_neg (by omega)]

/-- Witness for C8 at a concrete value with nested containers, escapes,
non-ASCII text and a negative float. -/
theorem c8_format_round_trip_witness :
    goodJson c8dd = true ∧ jsonLoads (format_json c8dd) = some c8dd :=
  ⟨by decide, (c8_format_round_trip c8dd (by decide)).1⟩

theorem parseObjBody_obj : ∀ (fuel : Nat) (cs : List Char) (acc : List (String × Json))
    (p : Json) (r : List Char), parseObjBody fuel cs acc = some (p, r) →
    ∃ kvs, p = .obj kvs := by
  intro fuel
  induction fuel with
  | zero => intro cs acc p r h; exact absurd h (by simp [parseObjBody])
  | succ fuel ih =>
    intro cs acc p r h
    simp only [parseObjBody] at h
    split at h
    · split at h
      · exact absurd h (by simp)
      · split at h
        · split at h
          · exact absurd h (by simp)
          · split at h
            · exact ih _ _ _ _ h
            · rw [Option.some_inj, Prod.mk.injEq] at h
              exact ⟨_, h.1.symm⟩
            · exact absurd h (by simp)
        · exact absurd h (by simp)
    · exact absurd h (by simp)

theorem parseValue_brace_obj {fuel : Nat} {rest : List Char} {p : Json} {r : List Char}
    (h : parseValue fuel ('{' :: rest) = some (p, r)) : ∃ kvs, p = .obj kvs := by
  cases fuel with
  | zero => exact absurd h (by simp [parseValue])
  | succ f =>
    simp only [parseValue] at h
    rw [if_pos trivial] at h
    split at h
    · rw [Option.some_inj, Prod.mk.injEq] at h
      exact ⟨[], h.1.symm⟩
    · exact parseObjBody_obj _ _ _ _ _ h

theorem jsonLoads_obj {s : String} {p : Json} (hh : ∃ t, s.data = '{' :: t)
    (h : jsonLoads s = some p) : ∃ kvs, p = .obj kvs := by
  obtain ⟨t, ht⟩ := hh
  unfold jsonLoads at h
  rw [ht, skipWs_cons _ (by decide)] at h
  split at h
  · rename_i v rest hpv
    split at h
    · rw [Option.some_inj] at h
      subst h
      exact parseValue_brace_obj hpv
    · exact absurd h (by simp)
  · exact absurd h (by simp)

/-- A successful scan result is a substring starting with `'{'`. -/
theorem efjo_head {text str : String} (h : extract_first_json_object text = some str) :
    ∃ u, str.data = '{' :: u := by
  rw [extract_first_json_object_eq] at h
  unfold firstBalancedObject at h
  split at h
  · rename_i i j hsp
    unfold firstBalancedSpan at hsp
    split at hsp
    · exact absurd hsp (by simp)
    · rename_i i0 hfind
      split at hsp
      · exact absurd hsp (by simp)
      · rename_i j0 hfind2
        rw [Option.some_inj, Prod.mk.injEq] at hsp
        obtain ⟨rfl, rfl⟩ := hsp
        have hto : topOpen text.data i0 = true := by
          have := List.find?_some hfind
          exact this
        have hij : i0 < j0 := by
          have := List.find?_some hfind2
          simp only [Bool.and_eq_true, decide_eq_true_eq] at this
          exact this.1
        have hch : text.data[i0]? = some '{' := (topOpen_char hto).1
        have hlt : i0 < text.data.length := by
          by_contra hge
          rw [List.getElem?_eq_none (by omega)] at hch
          exact Option.noConfusion hch
        have hdrop : text.data.drop i0 = '{' :: text.data.drop (i0 + 1) := by
          rw [List.drop_eq_getElem_cons hlt]
          congr 1
          have : text.data[i0] = '{' := by
            have := List.getElem?_eq_getElem hlt
            rw [this] at hch
            exact Option.some_inj.mp hch
          rw [this]
        rw [Option.some_inj] at h
        refine ⟨(text.data.drop (i0 + 1)).take (j0 - i0), ?_⟩
        rw [← h]
        show (String.mk ((text.data.drop i0).take (j0 + 1 - i0))).data = _
        rw [hdrop]
        rw [show j0 + 1 - i0 = (j0 - i0) + 1 from by omega]
        rfl
  · exact absurd h (by simp)

/-- On an object candidate `matches_mode` cannot raise and agrees with the
spec-side matcher. -/
theorem matches_mode_obj (kvs : List (String × Json)) (m : String) :
    matches_mode (.obj kvs) m = .ok (specMatch (.obj kvs) m) := by
  unfold matches_mode specMatch
  cases h : sigLookup m with
  | none => rfl
  | some sig =>
    show allFieldsIn sig (Json.obj kvs) = Except.ok (sig.all fun f => hasKey kvs f)
    rw [allFieldsIn_eq (show isContainer (Json.obj kvs) = true from rfl) sig]
    rfl

theorem stage1_eq (text : String) (m : String)
    (h1 : ∀ p, jsonLoads text = some p → ∃ kvs, p = Json.obj kvs) :
    stage1 text (some m) = .ok (specStrat1 text m) := by
  unfold stage1 specStrat1
  cases hj : jsonLoads text with
  | none => rfl
  | some p =>
    obtain ⟨kvs, rfl⟩ := h1 p hj
    simp only [matches_mode_obj, except_bind_ok]
    rfl

theorem stage2_eq (m : String) : ∀ (blks : List String),
    (∀ blk ∈ blks, ∀ p, jsonLoads blk = some p → ∃ kvs, p = Json.obj kvs) →
    stage2 blks (some m) = .ok (blks.findSome? (fun blk =>
      match jsonLoads blk with
      | some p => if specMatch p m then some p else none
      | none => none)) := by
  intro blks
  induction blks with
  | nil => intro _; rfl
  | cons blk rest ih =>
    intro h2
    have hrest := fun b hb => h2 b (List.mem_cons_of_mem _ hb)
    rw [List.findSome?_cons]
    show (match jsonLoads blk with
      | none => stage2 rest (some m)
      | some parsed => do
        let b ← matches_mode parsed m
        if b then pure (some parsed) else stage2 rest (some m)) = _
    cases hj : jsonLoads blk with
    | none => exact ih hrest
    | some p =>
      obtain ⟨kvs, rfl⟩ := h2 blk (by simp) p hj
      simp only [matches_mode_obj, except_bind_ok]
      cases hsm : specMatch (Json.obj kvs) m with
      | true => rfl
      | false =>
        show stage2 rest (some m) = _
        exact ih hrest

theorem stage3Loop_eq (text : String) (m : String) (firstField : String) :
    ∀ (fuel searchStart : Nat),
    stage3Loop text m firstField searchStart fuel =
      .ok (specStrat3Loop text m firstField searchStart fuel) := by
  intro fuel
  induction fuel with
  | zero => intro searchStart; rfl
  | succ fuel ih =>
    intro searchStart
    show (match strFind text.data ('"' :: firstField.data ++ ['"']) searchStart with
      | none => (.ok none : Except Unit (Option Json))
      | some pos1 =>
        match strRfind text.data '{' searchStart pos1 with
        | none => stage3Loop text m firstField (pos1 + 1) fuel
        | some braceStart =>
          match extract_first_json_object (String.mk (text.data.drop braceStart)) with
          | none => stage3Loop text m firstField (pos1 + 1) fuel
          | some jsonStr =>
            match jsonLoads jsonStr with
            | none => stage3Loop text m firstField (pos1 + 1) fuel
            | some parsed => do
              let b ← matches_mode parsed m
              if b then pure (some parsed)
              else stage3Loop text m firstField (pos1 + 1) fuel) = _
    unfold specStrat3Loop
    cases hf : strFind text.data ('"' :: firstField.data ++ ['"']) searchStart with
    | none => simp only [hf]
    | some pos1 =>
      simp only [hf]
      cases hr : strRfind text.data '{' searchStart pos1 with
      | none =>
        try simp only []
        exact ih (pos1 + 1)
      | some braceStart =>
        simp only []
        cases he : extract_first_json_object (String.mk (text.data.drop braceStart)) with
        | none =>
          try simp only []
          exact ih (pos1 + 1)
        | some jsonStr =>
          simp only []
          cases hj : jsonLoads jsonStr with
          | none =>
            try simp only []
            exact ih (pos1 + 1)
          | some parsed =>
            simp only []
            obtain ⟨kvs, rfl⟩ := jsonLoads_obj (efjo_head he) hj
            simp only [matches_mode_obj, except_bind_ok]
            cases hsm : specMatch (Json.obj kvs) m with
            | true =>
              try simp only [hsm]
              rfl
            | false =>
              try simp only [hsm]
              exact ih (pos1 + 1)

theorem stage3_eq (text : String) (m : String) :
    stage3 text (some m) = .ok (specStrat3 text m) := by
  show (match sigLookup m with
    | none => (.ok none : Except Unit (Option Json))
    | some [] => .ok none
    | some (firstField :: _) => stage3Loop text m firstField 0 (text.length + 1)) = _
  unfold specStrat3
  cases h : sigLookup m with
  | none => simp only [h]
  | some sig =>
    cases sig with
    | nil => simp only [h]
    | cons firstField rest =>
      simp only [h]
      exact stage3Loop_eq text m firstField _ 0

theorem stage4Loop_eq (text : String) (m : String) :
    ∀ (cs : List Char) (i : Nat) (bc : Int) (si : Option Nat),
    cs = text.data.drop i →
    (∀ s, si = some s → s ≤ i ∧ text.data[s]? = some '{') →
    stage4Loop text (some m) cs i bc si =
      .ok ((spans4Aux cs i bc si).findSome? (fun sp =>
        match jsonLoads (String.mk ((text.data.drop sp.1).take (sp.2 + 1 - sp.1))) with
        | some p => if specMatch p m then some p else none
        | none => none)) := by
  intro cs
  induction cs with
  | nil => intro i bc si _ _; rfl
  | cons c cs ih =>
    intro i bc si hcs hsi
    have hdrop1 : cs = text.data.drop (i + 1) := by
      have h1 : text.data.drop (i + 1) = (text.data.drop i).drop 1 := by
        rw [List.drop_drop, Nat.add_comm]
      rw [h1, ← hcs]
      rfl
    have hci : text.data[i]? = some c := by
      have := List.getElem?_drop text.data i 0
      rw [← hcs] at this
      simpa using this.symm
    simp only [stage4Loop, spans4Aux]
    by_cases hc : c = '{'
    · rw [if_pos hc, if_pos hc]
      have hsi2 : ∀ s, (if bc = 0 then some i else si) = some s →
          s ≤ i + 1 ∧ text.data[s]? = some '{' := by
        intro s hs
        by_cases hbc : bc = 0
        · rw [if_pos hbc, Option.some_inj] at hs
          subst hs
          rw [← hc]
          exact ⟨by omega, hci⟩
        · rw [if_neg hbc] at hs
          obtain ⟨h1, h2⟩ := hsi s hs
          exact ⟨by omega, h2⟩
      exact ih (i + 1) (bc + 1) _ hdrop1 hsi2
    · rw [if_neg hc, if_neg hc]
      by_cases hcc : c = '}'
      · rw [if_pos hcc, if_pos hcc]
        by_cases hbc : bc - 1 = 0
        · rw [if_pos hbc, if_pos hbc]
          cases si with
          | none =>
            exact ih (i + 1) (bc - 1) none hdrop1 (by intro s hs; exact absurd hs (by simp))
          | some s =>
            obtain ⟨hsle, hsch⟩ := hsi s rfl
            rw [List.findSome?_cons]
            have hslt : s < text.data.length := by
              by_contra hge
              rw [List.getElem?_eq_none (by omega)] at hsch
              exact Option.noConfusion hsch
            have hsub : ∃ u, (String.mk ((text.data.drop s).take (i + 1 - s))).data =
                '{' :: u := by
              have hdropS : text.data.drop s = '{' :: text.data.drop (s + 1) := by
                rw [List.drop_eq_getElem_cons hslt]
                congr 1
                have := List.getElem?_eq_getElem hslt
                rw [this] at hsch
                exact Option.some_inj.mp hsch
              refine ⟨(text.data.drop (s + 1)).take (i - s), ?_⟩
              show (text.data.drop s).take (i + 1 - s) = _
              rw [hdropS, show i + 1 - s = (i - s) + 1 from by omega]
              rfl
            cases hj : jsonLoads (String.mk ((text.data.drop s).take (i + 1 - s))) with
            | none =>
              try simp only [hj]
              exact ih (i + 1) (bc - 1) none hdrop1 (by intro s hs; exact absurd hs (by simp))
            | some parsed =>
              try simp only [hj]
              obtain ⟨kvs, rfl⟩ := jsonLoads_obj hsub hj
              simp only [matches_mode_obj, except_bind_ok]
              cases hsm : specMatch (Json.obj kvs) m with
              | true =>
                try simp only [hsm]
                rfl
              | false =>
                try simp only [hsm]
                exact ih (i + 1) (bc - 1) none hdrop1
                  (by intro s hs; exact absurd hs (by simp))
        · rw [if_neg hbc, if_neg hbc]
          exact ih (i + 1) (bc - 1) si hdrop1
            (fun s hs => ⟨by obtain ⟨h1, -⟩ := hsi s hs; omega, (hsi s hs).2⟩)
      · rw [if_neg hcc, if_neg hcc]
        exact ih (i + 1) bc si hdrop1
          (fun s hs => ⟨by obtain ⟨h1, -⟩ := hsi s hs; omega, (hsi s hs).2⟩)

theorem stage4_eq (text : String) (m : String) :
    stage4Loop text (some m) text.data 0 0 none = .ok (specStrat4 text m) := by
  have h := stage4Loop_eq text m text.data 0 0 none rfl
    (by intro s hs; exact absurd hs (by simp))
  rw [h]
  rfl

theorem stage2_eq2 (text : String) (m : String)
    (h2 : ∀ blk ∈ fencedBlocks text, ∀ p, jsonLoads blk = some p → ∃ kvs, p = Json.obj kvs) :
    stage2 (fencedBlocks text) (some m) = .ok (specStrat2 text m) :=
  stage2_eq m (fencedBlocks text) h2

/-- **C1 (amended).**  For the known modes, whenever the whole-text parse and
every fenced-block parse yield objects when they succeed (so that no
`TypeError` escapes from `matches_mode` on a non-container candidate),
`extract_json_from_text` returns normally and equals the spec-side four-stage
chain: whole-text parse, fenced blocks in order, field-anchored object search,
exhaustive span enumeration, the first mode-matched candidate winning. -/
theorem c1_amended_chain (text : String) (m : String)
    (_hm : m = "review" ∨ m = "analyze" ∨ m = "priority")
    (h1 : ∀ p, jsonLoads text = some p → ∃ kvs, p = Json.obj kvs)
    (h2 : ∀ blk ∈ fencedBlocks text, ∀ p, jsonLoads blk = some p → ∃ kvs, p = Json.obj kvs) :
    extract_json_from_text text (some m) = .ok (chainSpec text m) := by
  unfold extract_json_from_text chainSpec
  simp only [stage1_eq text m h1, except_bind_ok]
  cases hs1 : specStrat1 text m with
  | some p => rfl
  | none =>
    simp only [stage2_eq2 text m h2, except_bind_ok]
    cases hs2 : specStrat2 text m with
    | some p => rfl
    | none =>
      simp only [stage3_eq text m, except_bind_ok]
      cases hs3 : specStrat3 text m with
      | some p => rfl
      | none => exact stage4_eq text m

/-- Witness for C1 at a concrete text whose extraction succeeds via the
object-anchored strategies. -/
theorem c1_amended_chain_witness :
    extract_json_from_text c1text (some "review") = .ok (chainSpec c1text "review") :=
  c1_amended_chain c1text "review" (Or.inl rfl)
    (fun p hp => absurd hp (by rw [show jsonLoads c1text = none from by decide]; simp))
    (fun blk hblk => absurd hblk (by rw [show fencedBlocks c1text = [] from by decide]; simp))

end AgenticCR
